import Mathlib

/-!
# Verification of the saharos-kanban ordered-state and drag-and-drop core

Shallow embedding of the repository's TypeScript core:

* `src/core/types.ts` — `ID = string | number`, `parseId`, entity records.
* `src/core/state.ts` — `StateManager`: ordered collections of lanes,
  columns and cards with automatic renumbering (`reorderCards`,
  `reorderColumns`, `reorderLanes`), `addCard`/`removeCard`/`moveCard`
  and friends.
* `src/core/events.ts` — `EventBus` with `on`/`once`/`off`/`emit`.
* `src/core/dnd.ts` — `DragAndDropManager`: the pointer gesture state
  machine and the hit-testing insertion rule.
* `src/core/Kanban.ts` — the board facade (`SaharosKanban.moveCard`).

JavaScript machine details that matter are modelled explicitly:
`Array.prototype.sort` with the comparator `(a, b) => (a.order ?? 0) -
(b.order ?? 0)` is a stable sort by the key `order ?? 0`, embedded below
as insertion sort with a non-strict `≤` on the key (insertion sort is
stable); `===` on `string | number` values is structural equality of the
`IdVal` type; `undefined` and `null` for lane references are the two
non-`id` constructors of `LaneRef`.
-/

namespace Saharos

/-- `ID = string | number` (src/core/types.ts).  JS `===` on such values
is structural equality: a string is never equal to a number. -/
inductive IdVal where
  | str (s : String)
  | num (n : Int)
deriving DecidableEq, Repr

/-- The value space of the `laneId?: ID | null` fields: a lane reference
is either absent (`undefined`), explicitly `null`, or an `ID`. -/
inductive LaneRef where
  | undef
  | null
  | id (v : IdVal)
deriving DecidableEq, Repr

/-- JS `a ?? b` on a lane-reference value: `undefined` and `null` both
fall through to `b`. -/
def jsNullish (a b : LaneRef) : LaneRef :=
  match a with
  | .undef => b
  | .null => b
  | .id v => .id v

/-- `Lane` (src/core/types.ts).  The `meta` bag is presentation-only and
carried by no claim, so it is omitted. -/
structure Lane where
  id : IdVal
  title : String
  order : Option Int
deriving DecidableEq, Repr

/-- `Column` (src/core/types.ts), without the presentation-only `meta`. -/
structure Column where
  id : IdVal
  title : String
  laneId : LaneRef
  order : Option Int
deriving DecidableEq, Repr

/-- `Card` (src/core/types.ts), without the presentation-only
`description`, `labels` and `meta` fields (no claim mentions them and no
state.ts operation reads them). -/
structure Card where
  id : IdVal
  title : String
  columnId : IdVal
  laneId : LaneRef
  order : Option Int
deriving DecidableEq, Repr

/-- `KanbanState` (src/core/types.ts). -/
structure KanbanState where
  lanes : List Lane
  columns : List Column
  cards : List Card
deriving DecidableEq, Repr

/-! ## Stable sorting by `order`

`[...xs].sort((a, b) => (a.order ?? 0) - (b.order ?? 0))` sorts by the
key `order ?? 0`, keeping the original relative position of equal keys
(ECMAScript guarantees sort stability).  The unique function with that
behaviour is insertion sort with the non-strict order on the key. -/

/-- Sort key of an entity: `order ?? 0`. -/
def orderKey (o : Option Int) : Int := o.getD 0

/-- Stable sort of a list by an integer key. -/
def sortByKey (key : α → Int) (l : List α) : List α :=
  l.insertionSort (fun a b => key a ≤ key b)

theorem sortByKey_perm (key : α → Int) (l : List α) :
    (sortByKey key l).Perm l :=
  List.perm_insertionSort _ l

/-! ## Renumbering

`reorderCards` / `reorderColumns` / `reorderLanes` (src/core/state.ts)
all do the same thing: take the sorted filtered sibling group and assign
`order = index` to each member, in place.  `renumber` is that operation
on an immutable list: each element satisfying the group predicate `p`
receives as its new `order` its rank in the stable sort of the group,
and every other element is untouched.  Array positions (`List.enum`)
stand in for the object identities the JS code mutates through. -/

/-- The sibling group as (array position, element) pairs, in array
order: the object identities `forEach` mutates through, keyed by where
they sit in the underlying array. -/
def grpEnum (p : α → Bool) (l : List α) : List (Nat × α) :=
  l.enum.filter fun q => p q.2

/-- Array positions of the group in sorted order: position `k` of this
list is the array position of the group member that receives order `k`. -/
def rankPos (p : α → Bool) (key : α → Int) (l : List α) : List Nat :=
  ((grpEnum p l).insertionSort fun a b => key a.2 ≤ key b.2).map Prod.fst

def renumber (p : α → Bool) (key : α → Int) (setOrd : α → Nat → α)
    (l : List α) : List α :=
  l.enum.map fun q =>
    if p q.2 then setOrd q.2 ((rankPos p key l).indexOf q.1) else q.2

/-- Membership test of `StateManager.reorderCards`'s group: it calls
`getCards(columnId, laneId)`, which filters by `columnId` always and by
`laneId` only when that argument is not `undefined`. -/
def inCardGroup (columnId : IdVal) (laneId : LaneRef) (c : Card) : Bool :=
  c.columnId == columnId &&
    (match laneId with
     | .undef => true
     | l => c.laneId == l)

/-- `StateManager.reorderCards` (src/core/state.ts:320). -/
def reorderCards (cards : List Card) (columnId : IdVal) (laneId : LaneRef) :
    List Card :=
  renumber (inCardGroup columnId laneId) (fun c => orderKey c.order)
    (fun c n => { c with order := some (n : Int) }) cards

/-- `StateManager.reorderColumns` (src/core/state.ts:310): renumbers the
sorted list of *all* columns, with no lane filter. -/
def reorderColumns (columns : List Column) : List Column :=
  renumber (fun _ => true) (fun c => orderKey c.order)
    (fun c n => { c with order := some (n : Int) }) columns

/-- `StateManager.reorderLanes` (src/core/state.ts:300). -/
def reorderLanes (lanes : List Lane) : List Lane :=
  renumber (fun _ => true) (fun l => orderKey l.order)
    (fun l n => { l with order := some (n : Int) }) lanes

/-! ## Read accessors -/

/-- `StateManager.getCards(columnId?, laneId?)` (src/core/state.ts:65):
filter by column when given, filter by lane when the `laneId` argument
is not `undefined`, then sort by `order`. -/
def getCards (cards : List Card) (columnId : Option IdVal)
    (laneId : LaneRef) : List Card :=
  let f1 := match columnId with
    | some c => cards.filter (fun card => card.columnId == c)
    | none => cards
  let f2 := match laneId with
    | .undef => f1
    | l => f1.filter (fun card => card.laneId == l)
  sortByKey (fun c => orderKey c.order) f2

/-- `StateManager.getColumns(laneId?)` with the argument omitted:
all columns sorted by order. -/
def getColumnsAll (columns : List Column) : List Column :=
  sortByKey (fun c => orderKey c.order) columns

/-- `StateManager.getLanes` (src/core/state.ts:48). -/
def getLanes (lanes : List Lane) : List Lane :=
  sortByKey (fun l => orderKey l.order) lanes

/-- `StateManager.getCard` (src/core/state.ts:96): first card with the
given id, else null. -/
def getCard (cards : List Card) (cardId : IdVal) : Option Card :=
  cards.find? (fun c => c.id == cardId)

/-- `StateManager.getColumn` (src/core/state.ts:89). -/
def getColumn (columns : List Column) (columnId : IdVal) : Option Column :=
  columns.find? (fun c => c.id == columnId)

/-- `StateManager.getLane` (src/core/state.ts:82). -/
def getLane (lanes : List Lane) (laneId : IdVal) : Option Lane :=
  lanes.find? (fun l => l.id == laneId)

/-! ## Mutations -/

/-- JS `Array.prototype.splice(index, 0, x)`: insert at `index`, where a
negative index counts from the end (clamped at 0) and an index past the
end appends. -/
def spliceInsert (l : List α) (index : Int) (x : α) : List α :=
  let i : Nat := if index < 0 then (l.length + index).toNat else
    min index.toNat l.length
  l.take i ++ x :: l.drop i

/-- JS `Array.prototype.splice(index, 1)`. -/
def spliceRemove (l : List α) (index : Nat) : List α :=
  l.eraseIdx index

/-- `StateManager.addCard` (src/core/state.ts:197): the default order of
a new card is the size of `getCards(card.columnId, card.laneId)`; the
card is pushed at the end of the array in both branches, and the group
is renumbered only when an explicit index was supplied. -/
def addCard (s : KanbanState) (card : Card) (index : Option Int) :
    KanbanState :=
  let cardsInColumn := getCards s.cards (some card.columnId) card.laneId
  let newOrder : Int := match index with
    | some i => i
    | none => (cardsInColumn.length : Int)
  let newCard := { card with order := some newOrder }
  match index with
  | some _ =>
      let cards := reorderCards (s.cards ++ [newCard]) card.columnId card.laneId
      { s with cards := cards }
  | none => { s with cards := s.cards ++ [newCard] }

/-- `StateManager.removeCard` (src/core/state.ts:229). -/
def removeCard (s : KanbanState) (cardId : IdVal) : Bool × KanbanState :=
  match s.cards.findIdx? (fun c => c.id == cardId) with
  | none => (false, s)
  | some i =>
      match s.cards.get? i with
      | none => (false, s)
      | some card =>
          let cards := reorderCards (spliceRemove s.cards i)
            card.columnId card.laneId
          (true, { s with cards := cards })

/-- `StateManager.moveCard` (src/core/state.ts:244).  The card object is
updated in place (its array position is unchanged); the old and new
sibling groups are renumbered when the group changed, and when an
explicit `toIndex` is given the card's order is set to it and the
destination group renumbered once more. -/
def moveCard (s : KanbanState) (cardId : IdVal) (toColumnId : IdVal)
    (toLaneId : LaneRef) (toIndex : Option Int) : Bool × KanbanState :=
  match s.cards.findIdx? (fun c => c.id == cardId) with
  | none => (false, s)
  | some i =>
      match s.cards.get? i with
      | none => (false, s)
      | some card =>
          let oldColumnId := card.columnId
          let oldLaneId := card.laneId
          let card1 := { card with
            columnId := toColumnId
            laneId := match toLaneId with
              | .undef => card.laneId
              | l => l }
          let cards1 := s.cards.set i card1
          let newLane := jsNullish toLaneId card1.laneId
          let cards2 :=
            if oldColumnId ≠ toColumnId ∨ oldLaneId ≠ newLane then
              reorderCards (reorderCards cards1 oldColumnId oldLaneId)
                toColumnId newLane
            else cards1
          let cards3 := match toIndex with
            | none => cards2
            | some idx =>
                match cards2.get? i with
                | none => cards2
                | some c2 =>
                    reorderCards (cards2.set i { c2 with order := some idx })
                      toColumnId newLane
          (true, { s with cards := cards3 })

/-- `StateManager.addColumn` (src/core/state.ts:153): default order is
the total number of columns; with an index, splice then renumber all
columns. -/
def addColumn (s : KanbanState) (col : Column) (index : Option Int) :
    KanbanState :=
  match index with
  | some i =>
      let newCol := { col with order := some i }
      { s with columns := reorderColumns (spliceInsert s.columns i newCol) }
  | none =>
      let newCol := { col with order := some (s.columns.length : Int) }
      { s with columns := s.columns ++ [newCol] }

/-- `StateManager.removeColumn` (src/core/state.ts:184). -/
def removeColumn (s : KanbanState) (columnId : IdVal) : Bool × KanbanState :=
  match s.columns.findIdx? (fun c => c.id == columnId) with
  | none => (false, s)
  | some i =>
      (true, { s with columns := reorderColumns (spliceRemove s.columns i) })

/-- `StateManager.addLane` (src/core/state.ts:103). -/
def addLane (s : KanbanState) (lane : Lane) (index : Option Int) :
    KanbanState :=
  match index with
  | some i =>
      let newLane := { lane with order := some i }
      { s with lanes := reorderLanes (spliceInsert s.lanes i newLane) }
  | none =>
      let newLane := { lane with order := some (s.lanes.length : Int) }
      { s with lanes := s.lanes ++ [newLane] }

/-- `StateManager.removeLane` (src/core/state.ts:138). -/
def removeLane (s : KanbanState) (laneId : IdVal) : Bool × KanbanState :=
  match s.lanes.findIdx? (fun l => l.id == laneId) with
  | none => (false, s)
  | some i =>
      (true, { s with lanes := reorderLanes (spliceRemove s.lanes i) })

/-! ## Renumbering theory

The facts behind the order-density analysis: after `renumber p key
setOrd l`, the `p`-group carries each order in `0 … n-1` exactly once,
and every element outside the group — in particular every *other*
sibling group — is untouched. -/

/-- A multiset of `order` values is dense for size `n` when it is
exactly `{some 0, …, some (n-1)}`. -/
def DenseOrders (os : List (Option Int)) (n : Nat) : Prop :=
  os.Perm ((List.range n).map fun k => some (Int.ofNat k))

/-- A nodup list of naturals, mapped through its own `indexOf`, is
exactly `0 … length-1`. -/
theorem map_indexOf_self_eq_range :
    ∀ (L : List Nat), L.Nodup → L.map (fun i => L.indexOf i) = List.range L.length := by
  intro L
  induction L with
  | nil => intro _; rfl
  | cons a as ih =>
      intro hnd
      have hna : a ∉ as := (List.nodup_cons.mp hnd).1
      have hnd' : as.Nodup := (List.nodup_cons.mp hnd).2
      have htail : as.map (fun i => (a :: as).indexOf i)
          = (as.map fun i => as.indexOf i).map Nat.succ := by
        rw [List.map_map]
        refine List.map_congr_left ?_
        intro x hx
        have hax : a ≠ x := fun h => hna (h ▸ hx)
        simp [List.indexOf_cons_ne as hax]
      calc (a :: as).map (fun i => (a :: as).indexOf i)
          = (a :: as).indexOf a :: as.map (fun i => (a :: as).indexOf i) := rfl
        _ = 0 :: (as.map fun i => as.indexOf i).map Nat.succ := by
            rw [List.indexOf_cons_self, htail]
        _ = 0 :: (List.range as.length).map Nat.succ := by rw [ih hnd']
        _ = List.range (a :: as).length := (List.range_succ_eq_map _).symm

theorem grpEnum_map_snd (p : α → Bool) (l : List α) :
    (grpEnum p l).map Prod.snd = l.filter p := by
  unfold grpEnum
  rw [show (fun q : Nat × α => p q.2) = (p ∘ Prod.snd) from rfl,
    ← List.filter_map, List.enum_map_snd]

theorem grpEnum_length (p : α → Bool) (l : List α) :
    (grpEnum p l).length = (l.filter p).length := by
  rw [← grpEnum_map_snd p l, List.length_map]

theorem rankPos_perm (p : α → Bool) (key : α → Int) (l : List α) :
    (rankPos p key l).Perm ((grpEnum p l).map Prod.fst) :=
  (List.perm_insertionSort _ _).map _

theorem grpEnum_map_fst_nodup (p : α → Bool) (l : List α) :
    ((grpEnum p l).map Prod.fst).Nodup := by
  have hsub : ((grpEnum p l).map Prod.fst).Sublist (l.enum.map Prod.fst) :=
    (List.filter_sublist _).map _
  rw [List.enum_map_fst] at hsub
  exact hsub.nodup (List.nodup_range _)

theorem rankPos_nodup (p : α → Bool) (key : α → Int) (l : List α) :
    (rankPos p key l).Nodup :=
  (rankPos_perm p key l).nodup_iff.mpr (grpEnum_map_fst_nodup p l)

theorem rankPos_length (p : α → Bool) (key : α → Int) (l : List α) :
    (rankPos p key l).length = (l.filter p).length := by
  rw [(rankPos_perm p key l).length_eq, List.length_map, grpEnum_length]

/-- The group part of a renumbered list: the group members, still in
array order, each carrying the rank of its array position. -/
theorem renumber_filter_self (p : α → Bool) (key : α → Int)
    (setOrd : α → Nat → α) (l : List α)
    (hp : ∀ x n, p (setOrd x n) = p x) :
    (renumber p key setOrd l).filter p
      = (grpEnum p l).map fun q => setOrd q.2 ((rankPos p key l).indexOf q.1) := by
  unfold renumber
  rw [List.filter_map]
  have hps : ∀ q ∈ l.enum,
      (p ∘ fun q : Nat × α =>
        if p q.2 then setOrd q.2 ((rankPos p key l).indexOf q.1) else q.2) q
      = (fun q : Nat × α => p q.2) q := by
    intro q _
    by_cases h : p q.2 = true
    · simp [h, hp]
    · simp [h, Function.comp]
  rw [List.filter_congr hps]
  refine List.map_congr_left ?_
  intro q hq
  have : p q.2 = true := (List.mem_filter.mp hq).2
  simp [this]

/-- The orders of the renumbered group are exactly `{0, …, n-1}` where
`n` is the group size. -/
theorem renumber_dense (p : α → Bool) (key : α → Int)
    (setOrd : α → Nat → α) (ord : α → Option Int) (l : List α)
    (hp : ∀ x n, p (setOrd x n) = p x)
    (hord : ∀ x n, ord (setOrd x n) = some (n : Int)) :
    DenseOrders (((renumber p key setOrd l).filter p).map ord)
      ((l.filter p).length) := by
  unfold DenseOrders
  rw [renumber_filter_self p key setOrd l hp, List.map_map]
  have hcomp : (ord ∘ fun q : Nat × α =>
      setOrd q.2 ((rankPos p key l).indexOf q.1))
      = (fun i : Nat => some (Int.ofNat ((rankPos p key l).indexOf i))) ∘ Prod.fst := by
    funext q
    simp [Function.comp, hord]
  rw [hcomp, ← List.map_map]
  have hperm := ((rankPos_perm p key l).symm).map
    (fun i : Nat => some (Int.ofNat ((rankPos p key l).indexOf i)))
  refine hperm.trans ?_
  have hmap : (rankPos p key l).map
      (fun i : Nat => some (Int.ofNat ((rankPos p key l).indexOf i)))
      = ((rankPos p key l).map fun i => (rankPos p key l).indexOf i).map
          (fun n : Nat => some (Int.ofNat n)) := by
    rw [List.map_map]; rfl
  rw [hmap, map_indexOf_self_eq_range _ (rankPos_nodup p key l),
    rankPos_length]

/-- Elements outside the group — any `p'` disjoint from `p` and blind to
`order` — are untouched by `renumber`. -/
theorem renumber_filter_other (p p' : α → Bool) (key : α → Int)
    (setOrd : α → Nat → α) (l : List α)
    (hdisj : ∀ x, p x = true → p' x = false)
    (hp' : ∀ x n, p' (setOrd x n) = p' x) :
    (renumber p key setOrd l).filter p' = l.filter p' := by
  unfold renumber
  rw [List.filter_map]
  have hps : ∀ q ∈ l.enum,
      (p' ∘ fun q : Nat × α =>
        if p q.2 then setOrd q.2 ((rankPos p key l).indexOf q.1) else q.2) q
      = (fun q : Nat × α => p' q.2) q := by
    intro q _
    by_cases h : p q.2 = true
    · simp [h, hp']
    · simp [h, Function.comp]
  rw [List.filter_congr hps]
  have hid : ∀ q ∈ (l.enum.filter fun q : Nat × α => p' q.2),
      (fun q : Nat × α =>
        if p q.2 then setOrd q.2 ((rankPos p key l).indexOf q.1) else q.2) q
      = Prod.snd q := by
    intro q hq
    have hq' : p' q.2 = true := (List.mem_filter.mp hq).2
    have hpq : p q.2 = false := by
      cases hp2 : p q.2
      · rfl
      · exact absurd ((hdisj q.2 hp2).symm.trans hq') (by decide)
    simp [hpq]
  rw [List.map_congr_left hid,
    show (fun q : Nat × α => p' q.2) = (p' ∘ Prod.snd) from rfl,
    ← List.filter_map, List.enum_map_snd]

/-- `renumber` only rewrites orders: any predicate blind to `order` that
holds everywhere keeps holding everywhere. -/
theorem renumber_forall (p : α → Bool) (key : α → Int)
    (setOrd : α → Nat → α) (P : α → Prop) (l : List α)
    (hP : ∀ x n, P x → P (setOrd x n))
    (h : ∀ x ∈ l, P x) :
    ∀ y ∈ renumber p key setOrd l, P y := by
  intro y hy
  unfold renumber at hy
  obtain ⟨q, hq, rfl⟩ := List.mem_map.mp hy
  have hq2 : q.2 ∈ l := by
    have : q.2 ∈ l.enum.map Prod.snd := List.mem_map_of_mem _ hq
    rwa [List.enum_map_snd] at this
  by_cases h' : p q.2 = true
  · simp only [h', if_true]; exact hP _ _ (h _ hq2)
  · simp only [Bool.not_eq_true] at h'; simp only [h', Bool.false_eq_true,
      if_false]; exact h _ hq2

/-- Pointwise view of `renumber`: the element at array position `i`
either keeps its value (outside the group) or has only its order
rewritten. -/
theorem renumber_get? (p : α → Bool) (key : α → Int)
    (setOrd : α → Nat → α) (l : List α) (i : Nat) :
    (renumber p key setOrd l).get? i
      = (l.get? i).map fun x =>
          if p x then setOrd x ((rankPos p key l).indexOf i) else x := by
  unfold renumber
  rw [List.get?_eq_getElem?, List.getElem?_map, List.getElem?_enum,
    ← List.get?_eq_getElem?]
  cases l.get? i <;> rfl

theorem renumber_length (p : α → Bool) (key : α → Int)
    (setOrd : α → Nat → α) (l : List α) :
    (renumber p key setOrd l).length = l.length := by
  unfold renumber
  rw [List.length_map, List.enum_length]

/-! ## Small list facts -/

/-- Writing back the element already at a position is a no-op. -/
theorem set_get?_self : ∀ (l : List α) (i : Nat) (x : α),
    l.get? i = some x → l.set i x = l := by
  intro l
  induction l with
  | nil => intro i x h; cases h
  | cons a as ih =>
      intro i x h
      cases i with
      | zero => cases h; rfl
      | succ j => simpa using ih j x (by simpa using h)

/-- Replacing an element that the filter rejects with another rejected
element does not change the filter. -/
theorem filter_set_of_not (p : α → Bool) : ∀ (l : List α) (i : Nat) (x y : α),
    l.get? i = some x → p x = false → p y = false →
    (l.set i y).filter p = l.filter p := by
  intro l
  induction l with
  | nil => intro i x y h; cases h
  | cons a as ih =>
      intro i x y h hx hy
      cases i with
      | zero =>
          cases h
          simp [List.filter_cons, hx, hy]
      | succ j =>
          have := ih j x y (by simpa using h) hx hy
          simp [List.filter_cons, this]

/-- Removing an element that the filter rejects does not change the
filter. -/
theorem filter_eraseIdx_of_not (p : α → Bool) : ∀ (l : List α) (i : Nat) (x : α),
    l.get? i = some x → p x = false →
    (l.eraseIdx i).filter p = l.filter p := by
  intro l
  induction l with
  | nil => intro i x h; cases h
  | cons a as ih =>
      intro i x h hx
      cases i with
      | zero =>
          cases h
          simp [List.filter_cons, hx]
      | succ j =>
          have := ih j x (by simpa using h) hx
          simp [List.filter_cons, this]

/-! ## Sibling groups and density invariants -/

/-- The sibling group of cards named by the specification: the cards
sharing one `columnId` *and* one `laneId` value. -/
def exactCardGroup (cards : List Card) (c : IdVal) (l : LaneRef) :
    List Card :=
  cards.filter fun x => x.columnId == c && x.laneId == l

/-- The per-lane sibling group of columns named by the specification. -/
def columnLaneGroup (columns : List Column) (l : LaneRef) : List Column :=
  columns.filter fun x => x.laneId == l

/-- Every card sibling group carries orders `{0, …, n-1}`. -/
def CardGroupsDense (cards : List Card) : Prop :=
  ∀ c l, DenseOrders ((exactCardGroup cards c l).map (fun x => x.order))
    (exactCardGroup cards c l).length

/-- The global column sequence carries orders `{0, …, n-1}` — this is
the grouping the code's `reorderColumns`/`addColumn` actually maintain. -/
def ColumnsDense (columns : List Column) : Prop :=
  DenseOrders (columns.map (fun x => x.order)) columns.length

/-- All lanes carry orders `{0, …, n-1}`. -/
def LanesDense (lanes : List Lane) : Prop :=
  DenseOrders (lanes.map (fun x => x.order)) lanes.length

/-- No card leaves its `laneId` absent (`undefined`); it is either an
`ID` or an explicit `null`. -/
def NoUndefLane (cards : List Card) : Prop :=
  ∀ x ∈ cards, (x.laneId ≠ .undef)

/-- The order-density invariant the store actually maintains. -/
def StoreInv (s : KanbanState) : Prop :=
  NoUndefLane s.cards ∧ CardGroupsDense s.cards ∧
    ColumnsDense s.columns ∧ LanesDense s.lanes

/-- The sibling-group density property exactly as the specification
states it: card groups per column+lane, column groups per lane, lanes
overall. -/
def SpecSiblingDensity (s : KanbanState) : Prop :=
  (∀ c l, DenseOrders ((exactCardGroup s.cards c l).map (fun x => x.order))
      (exactCardGroup s.cards c l).length) ∧
    (∀ l, DenseOrders ((columnLaneGroup s.columns l).map (fun x => x.order))
      (columnLaneGroup s.columns l).length) ∧
    LanesDense s.lanes

theorem DenseOrders.length_eq {os : List (Option Int)} {n : Nat}
    (h : DenseOrders os n) : os.length = n := by
  have := List.Perm.length_eq h
  simpa using this

/-- Restate density relative to the list's own length. -/
theorem DenseOrders.self {os : List (Option Int)} {n : Nat}
    (h : DenseOrders os n) : DenseOrders os os.length := by
  rwa [h.length_eq]

/-! ## What the three `reorder*` methods do to sibling groups -/

/-- With a lane argument that is not `undefined`, `reorderCards`'s group
filter is exactly the specification's sibling group. -/
theorem inCardGroup_eq {l : LaneRef} (c : IdVal) (hl : l ≠ .undef) :
    inCardGroup c l = fun x => x.columnId == c && x.laneId == l := by
  funext x
  cases l with
  | undef => exact absurd rfl hl
  | null => rfl
  | id v => rfl

theorem reorderCards_group_dense (cards : List Card) (c : IdVal)
    {l : LaneRef} (hl : l ≠ .undef) :
    DenseOrders
      ((exactCardGroup (reorderCards cards c l) c l).map fun x => x.order)
      (exactCardGroup (reorderCards cards c l) c l).length := by
  have h := renumber_dense (inCardGroup c l) (fun x => orderKey x.order)
    (fun x n => { x with order := some (n : Int) }) (fun x => x.order) cards
    (fun _ _ => rfl) (fun _ _ => rfl)
  have h2 := h.self
  rw [List.length_map] at h2
  unfold exactCardGroup reorderCards
  rw [← inCardGroup_eq c hl]
  exact h2

theorem reorderCards_group_other (cards : List Card) {c : IdVal}
    {l : LaneRef} (hl : l ≠ .undef) (c' : IdVal) (l' : LaneRef)
    (hne : ¬(c' = c ∧ l' = l)) :
    exactCardGroup (reorderCards cards c l) c' l'
      = exactCardGroup cards c' l' := by
  unfold exactCardGroup reorderCards
  refine renumber_filter_other _ _ _ _ _ ?_ (fun _ _ => rfl)
  intro x hx
  rw [inCardGroup_eq c hl] at hx
  have hc : x.columnId = c := by
    have := (Bool.and_eq_true _ _).mp hx |>.1
    exact eq_of_beq this
  have hlx : x.laneId = l := by
    have := (Bool.and_eq_true _ _).mp hx |>.2
    exact eq_of_beq this
  by_cases h1 : x.columnId == c'
  · have : c' = c := by rw [← eq_of_beq h1, hc]
    have : ¬ (x.laneId == l') = true := by
      intro h2
      exact hne ⟨this, by rw [← eq_of_beq h2, hlx]⟩
    simp [h1, this]
  · simp [Bool.not_eq_true] at h1
    simp [h1]

theorem reorderCards_noUndef (cards : List Card) (c : IdVal) (l : LaneRef)
    (h : NoUndefLane cards) : NoUndefLane (reorderCards cards c l) :=
  renumber_forall _ _ _ _ cards (fun _ _ hx => hx) h

/-- Renumbering the whole column list makes it globally dense. -/
theorem reorderColumns_dense (columns : List Column) :
    ColumnsDense (reorderColumns columns) := by
  have h := renumber_dense (fun _ : Column => true) (fun x => orderKey x.order)
    (fun x n => { x with order := some (n : Int) }) (fun x => x.order) columns
    (fun _ _ => rfl) (fun _ _ => rfl)
  rw [List.filter_true] at h
  have h2 := h.self
  rw [List.length_map] at h2
  unfold ColumnsDense reorderColumns
  exact h2

theorem reorderLanes_dense (lanes : List Lane) :
    LanesDense (reorderLanes lanes) := by
  have h := renumber_dense (fun _ : Lane => true) (fun x => orderKey x.order)
    (fun x n => { x with order := some (n : Int) }) (fun x => x.order) lanes
    (fun _ _ => rfl) (fun _ _ => rfl)
  rw [List.filter_true] at h
  have h2 := h.self
  rw [List.length_map] at h2
  unfold LanesDense reorderLanes
  exact h2

/-- Appending one entity whose order is the current size keeps the
multiset of orders dense. -/
theorem DenseOrders.append_one {os : List (Option Int)}
    (h : DenseOrders os os.length) :
    DenseOrders (os ++ [some (Int.ofNat os.length)]) (os.length + 1) := by
  unfold DenseOrders at h ⊢
  rw [List.range_succ, List.map_append]
  exact h.append_right _

/-- The sibling-group membership test is `false` for a card outside the
group. -/
theorem exactPred_false {x : Card} {c : IdVal} {l : LaneRef}
    (h : ¬(x.columnId = c ∧ x.laneId = l)) :
    (x.columnId == c && x.laneId == l) = false := by
  by_cases h1 : x.columnId = c
  · by_cases h2 : x.laneId = l
    · exact absurd ⟨h1, h2⟩ h
    · simp [h2]
  · simp [h1]

/-! ## The operation language of the claims: add, remove, move -/

/-- One `StateManager` mutation from the add/remove/move family. -/
inductive Op where
  | addLane (lane : Lane) (index : Option Int)
  | removeLane (id : IdVal)
  | addColumn (col : Column) (index : Option Int)
  | removeColumn (id : IdVal)
  | addCard (card : Card) (index : Option Int)
  | removeCard (id : IdVal)
  | moveCard (id toColumnId : IdVal) (toLaneId : LaneRef)
      (toIndex : Option Int)

def applyOp (s : KanbanState) : Op → KanbanState
  | .addLane lane i => addLane s lane i
  | .removeLane id => (removeLane s id).2
  | .addColumn c i => addColumn s c i
  | .removeColumn id => (removeColumn s id).2
  | .addCard c i => addCard s c i
  | .removeCard id => (removeCard s id).2
  | .moveCard id c l i => (moveCard s id c l i).2

def applyOps (s : KanbanState) (ops : List Op) : KanbanState :=
  ops.foldl applyOp s

/-- The one side condition of the amended density claim: a card handed
to `addCard` carries an explicit lane reference (an `ID` or `null`),
never `undefined`.  All other operations are unrestricted. -/
def LegalOp : Op → Prop
  | .addCard c _ => c.laneId ≠ .undef
  | _ => True

/-! ## Per-operation preservation of the density invariant -/

theorem addColumn_dense (s : KanbanState) (col : Column) (idx : Option Int)
    (h : ColumnsDense s.columns) : ColumnsDense (addColumn s col idx).columns := by
  cases idx with
  | some i => exact reorderColumns_dense _
  | none =>
      show ColumnsDense (s.columns ++ [_])
      unfold ColumnsDense at h ⊢
      rw [List.map_append, List.length_append]
      have h2 := (h.self).append_one
      simp only [List.length_map] at h2
      simpa [Int.ofNat_eq_natCast] using h2

theorem removeColumn_dense (s : KanbanState) (columnId : IdVal)
    (h : ColumnsDense s.columns) :
    ColumnsDense (removeColumn s columnId).2.columns := by
  unfold removeColumn
  cases s.columns.findIdx? (fun c => c.id == columnId) with
  | none => exact h
  | some i => exact reorderColumns_dense _

theorem addLane_dense (s : KanbanState) (lane : Lane) (idx : Option Int)
    (h : LanesDense s.lanes) : LanesDense (addLane s lane idx).lanes := by
  cases idx with
  | some i => exact reorderLanes_dense _
  | none =>
      show LanesDense (s.lanes ++ [_])
      unfold LanesDense at h ⊢
      rw [List.map_append, List.length_append]
      have h2 := (h.self).append_one
      simp only [List.length_map] at h2
      simpa [Int.ofNat_eq_natCast] using h2

theorem removeLane_dense (s : KanbanState) (laneId : IdVal)
    (h : LanesDense s.lanes) : LanesDense (removeLane s laneId).2.lanes := by
  unfold removeLane
  cases s.lanes.findIdx? (fun l => l.id == laneId) with
  | none => exact h
  | some i => exact reorderLanes_dense _

/-- With an explicit lane reference, `getCards(columnId, laneId)` is a
permutation of the specification's sibling group; in particular the two
have the same size. -/
theorem getCards_length_exact (cards : List Card) (c : IdVal) {l : LaneRef}
    (hl : l ≠ .undef) :
    (getCards cards (some c) l).length = (exactCardGroup cards c l).length := by
  have hperm : ∀ gl : List Card,
      (sortByKey (fun x : Card => orderKey x.order) gl).length = gl.length :=
    fun gl => (sortByKey_perm _ gl).length_eq
  cases l with
  | undef => exact absurd rfl hl
  | null =>
      show (sortByKey _ ((cards.filter _).filter _)).length = _
      rw [hperm, List.filter_filter]
      unfold exactCardGroup
      congr 1
      exact List.filter_congr fun x _ => by
        rw [Bool.and_comm]
  | id v =>
      show (sortByKey _ ((cards.filter _).filter _)).length = _
      rw [hperm, List.filter_filter]
      unfold exactCardGroup
      congr 1
      exact List.filter_congr fun x _ => by
        rw [Bool.and_comm]

theorem addCard_inv (s : KanbanState) (card : Card) (idx : Option Int)
    (hcard : card.laneId ≠ .undef)
    (hn : NoUndefLane s.cards) (hd : CardGroupsDense s.cards) :
    NoUndefLane (addCard s card idx).cards ∧
      CardGroupsDense (addCard s card idx).cards := by
  have happmem : ∀ (nc : Card), nc.laneId = card.laneId →
      NoUndefLane (s.cards ++ [nc]) := by
    intro nc hnc x hx
    rcases List.mem_append.mp hx with h | h
    · exact hn x h
    · rcases List.mem_singleton.mp h with rfl
      rw [hnc]; exact hcard
  cases idx with
  | some i =>
      constructor
      · exact reorderCards_noUndef _ _ _ (happmem _ rfl)
      · intro c l
        by_cases hcl : c = card.columnId ∧ l = card.laneId
        · rcases hcl with ⟨rfl, rfl⟩
          exact reorderCards_group_dense _ _ hcard
        · rw [show (addCard s card (some i)).cards
              = reorderCards (s.cards ++ [_]) card.columnId card.laneId from rfl,
            reorderCards_group_other _ hcard c l hcl]
          unfold exactCardGroup
          rw [List.filter_append]
          have hfalse : (card.columnId == c && card.laneId == l) = false := by
            refine exactPred_false fun hh => hcl ⟨hh.1.symm, hh.2.symm⟩
          rw [show List.filter (fun x : Card => x.columnId == c && x.laneId == l)
              [{ card with order := some i }] = [] from by
            simp [List.filter_cons, hfalse]]
          rw [List.append_nil]
          exact hd c l
  | none =>
      constructor
      · exact happmem _ rfl
      · intro c l
        show DenseOrders ((exactCardGroup (s.cards ++ [_]) c l).map _)
          (exactCardGroup (s.cards ++ [_]) c l).length
        by_cases hcl : c = card.columnId ∧ l = card.laneId
        · rcases hcl with ⟨rfl, rfl⟩
          unfold exactCardGroup
          rw [List.filter_append]
          have htrue : (card.columnId == card.columnId &&
              card.laneId == card.laneId) = true := by simp
          rw [show List.filter
              (fun x : Card => x.columnId == card.columnId &&
                x.laneId == card.laneId)
              [{ card with order := some ((getCards s.cards (some card.columnId)
                card.laneId).length : Int) }]
              = [{ card with order := some ((getCards s.cards (some card.columnId)
                card.laneId).length : Int) }] from by
            simp [List.filter_cons, htrue]]
          have hgrp := hd card.columnId card.laneId
          have hlen := getCards_length_exact s.cards card.columnId hcard
          rw [List.map_append, List.length_append]
          have h2 := (hgrp.self).append_one
          simp only [List.length_map] at h2
          rw [hlen]
          simpa [Int.ofNat_eq_natCast] using h2
        · unfold exactCardGroup
          rw [List.filter_append]
          have hfalse : (card.columnId == c && card.laneId == l) = false := by
            refine exactPred_false fun hh => hcl ⟨hh.1.symm, hh.2.symm⟩
          rw [show List.filter (fun x : Card => x.columnId == c && x.laneId == l)
              [{ card with order := some ((getCards s.cards (some card.columnId)
                card.laneId).length : Int) }] = [] from by
            simp [List.filter_cons, hfalse]]
          rw [List.append_nil]
          exact hd c l

theorem removeCard_inv (s : KanbanState) (cardId : IdVal)
    (hn : NoUndefLane s.cards) (hd : CardGroupsDense s.cards) :
    NoUndefLane (removeCard s cardId).2.cards ∧
      CardGroupsDense (removeCard s cardId).2.cards := by
  unfold removeCard
  split
  · exact ⟨hn, hd⟩
  · rename_i i _
    split
    · exact ⟨hn, hd⟩
    · rename_i card hget
      have hmem : card ∈ s.cards := List.get?_mem hget
      have hlane : card.laneId ≠ .undef := hn card hmem
      constructor
      · show NoUndefLane (reorderCards (spliceRemove s.cards i)
          card.columnId card.laneId)
        refine reorderCards_noUndef _ _ _ ?_
        intro x hx
        exact hn x ((List.eraseIdx_sublist s.cards i).mem hx)
      · intro c l
        show DenseOrders ((exactCardGroup (reorderCards (spliceRemove s.cards i)
            card.columnId card.laneId) c l).map _) _
        by_cases hcl : c = card.columnId ∧ l = card.laneId
        · rcases hcl with ⟨rfl, rfl⟩
          exact reorderCards_group_dense _ _ hlane
        · rw [reorderCards_group_other _ hlane c l hcl]
          unfold exactCardGroup
          rw [show (spliceRemove s.cards i) = s.cards.eraseIdx i from rfl]
          rw [filter_eraseIdx_of_not _ s.cards i card hget
            (exactPred_false fun hh => hcl ⟨hh.1.symm, hh.2.symm⟩)]
          exact hd c l

/-- Density of one sibling group. -/
def DenseGroup (cards : List Card) (c : IdVal) (l : LaneRef) : Prop :=
  DenseOrders ((exactCardGroup cards c l).map fun x => x.order)
    (exactCardGroup cards c l).length

/-- Density of every sibling group except possibly two. -/
def DenseExcept2 (cards : List Card) (g1 g2 : IdVal × LaneRef) : Prop :=
  ∀ c l, (c, l) ≠ g1 → (c, l) ≠ g2 → DenseGroup cards c l

theorem cardGroupsDense_iff (cards : List Card) :
    CardGroupsDense cards ↔ ∀ c l, DenseGroup cards c l := Iff.rfl

/-- Overwriting position `i` disturbs at most the group of the old
occupant and the group of the new one. -/
theorem set_denseExcept2 (cards : List Card) (i : Nat) (x y : Card)
    (hget : cards.get? i = some x) (hd : CardGroupsDense cards) :
    DenseExcept2 (cards.set i y) (x.columnId, x.laneId)
      (y.columnId, y.laneId) := by
  intro c l h1 h2
  unfold DenseGroup exactCardGroup
  rw [filter_set_of_not _ cards i x y hget
    (exactPred_false fun hh => h1 (by rw [← hh.1, ← hh.2]))
    (exactPred_false fun hh => h2 (by rw [← hh.1, ← hh.2]))]
  exact hd c l

/-- Renumbering the first disturbed group leaves at most the second
disturbed. -/
theorem reorder_denseExcept2 (cards : List Card) {c1 : IdVal} {l1 : LaneRef}
    (hl1 : l1 ≠ .undef) (g2 : IdVal × LaneRef)
    (h : DenseExcept2 cards (c1, l1) g2) :
    ∀ c l, (c, l) ≠ g2 → DenseGroup (reorderCards cards c1 l1) c l := by
  intro c l h2
  by_cases h1 : c = c1 ∧ l = l1
  · rcases h1 with ⟨rfl, rfl⟩
    exact reorderCards_group_dense _ _ hl1
  · unfold DenseGroup
    rw [reorderCards_group_other _ hl1 c l h1]
    exact h (c := c) (l := l) (by
      intro hh
      exact h1 ⟨congrArg Prod.fst hh, congrArg Prod.snd hh⟩) h2

/-- Renumbering the remaining disturbed group restores full density. -/
theorem reorder_denseAll (cards : List Card) {c2 : IdVal} {l2 : LaneRef}
    (hl2 : l2 ≠ .undef)
    (h : ∀ c l, (c, l) ≠ (c2, l2) → DenseGroup cards c l) :
    CardGroupsDense (reorderCards cards c2 l2) := by
  intro c l
  by_cases h1 : c = c2 ∧ l = l2
  · rcases h1 with ⟨rfl, rfl⟩
    exact reorderCards_group_dense _ _ hl2
  · show DenseGroup _ c l
    unfold DenseGroup
    rw [reorderCards_group_other _ hl2 c l h1]
    exact h c l (by
      intro hh
      exact h1 ⟨congrArg Prod.fst hh, congrArg Prod.snd hh⟩)

theorem set_noUndef (cards : List Card) (i : Nat) (y : Card)
    (hn : NoUndefLane cards) (hy : y.laneId ≠ .undef) :
    NoUndefLane (cards.set i y) := by
  intro x hx
  rcases List.mem_or_eq_of_mem_set hx with h | rfl
  · exact hn x h
  · exact hy

/-- `moveCard`'s group-change path: overwrite the moved card in place,
renumber its old group, renumber its new group.  Density of every
sibling group is restored, whatever the two groups were. -/
theorem moveCard_changed_inv (cards : List Card) (i : Nat) (card card1 : Card)
    (hget : cards.get? i = some card)
    (hlane : card.laneId ≠ .undef) (h1 : card1.laneId ≠ .undef)
    (hn : NoUndefLane cards) (hd : CardGroupsDense cards) :
    NoUndefLane (reorderCards (reorderCards (cards.set i card1)
        card.columnId card.laneId) card1.columnId card1.laneId) ∧
      CardGroupsDense (reorderCards (reorderCards (cards.set i card1)
        card.columnId card.laneId) card1.columnId card1.laneId) := by
  constructor
  · exact reorderCards_noUndef _ _ _ (reorderCards_noUndef _ _ _
      (set_noUndef cards i card1 hn h1))
  · have hset := set_denseExcept2 cards i card card1 hget hd
    have h2 := reorder_denseExcept2 _ hlane _ hset
    exact reorder_denseAll _ h1 h2

/-- `moveCard`'s explicit-index path: write `toIndex` into the moved
card's `order` and renumber its sibling group (named by the card's own
column and lane, passed as the — equal — arguments the code supplies). -/
theorem setOrder_reorder_inv (cards : List Card) (i : Nat) (c2 : Card)
    (idx : Int) (cc : IdVal) (ll : LaneRef)
    (hc : c2.columnId = cc) (hl : c2.laneId = ll)
    (hget : cards.get? i = some c2) (hll : ll ≠ .undef)
    (hn : NoUndefLane cards) (hd : CardGroupsDense cards) :
    NoUndefLane (reorderCards (cards.set i { c2 with order := some idx })
        cc ll) ∧
      CardGroupsDense (reorderCards (cards.set i { c2 with order := some idx })
        cc ll) := by
  subst hc hl
  constructor
  · exact reorderCards_noUndef _ _ _ (set_noUndef cards i _ hn hll)
  · have hset := set_denseExcept2 cards i c2 { c2 with order := some idx }
      hget hd
    refine reorder_denseAll _ hll ?_
    intro c l hne
    exact hset c l hne hne

/-- `reorderCards` rewrites only orders: the card at any position keeps
its identity, column and lane. -/
theorem reorderCards_get?_some (cards : List Card) (c : IdVal) (l : LaneRef)
    (i : Nat) (x : Card) (h : cards.get? i = some x) :
    ∃ y, (reorderCards cards c l).get? i = some y ∧
      y.columnId = x.columnId ∧ y.laneId = x.laneId := by
  unfold reorderCards
  rw [renumber_get?, h]
  by_cases hp : inCardGroup c l x = true
  · exact ⟨{ x with order := some (((rankPos (inCardGroup c l)
        (fun c => orderKey c.order) cards).indexOf i : Nat) : Int) },
      by rw [Option.map_some', if_pos hp], rfl, rfl⟩
  · simp only [Bool.not_eq_true] at hp
    exact ⟨x, by rw [Option.map_some', if_neg (by simp [hp])], rfl, rfl⟩

theorem set_get?_eq (l : List α) (i : Nat) (y : α)
    (hi : i < l.length) : (l.set i y).get? i = some y := by
  rw [List.get?_eq_getElem?]
  exact List.getElem?_set_self hi

/-- `StateManager.moveCard` preserves the density invariant for cards:
whatever branch runs, every sibling group it disturbs is renumbered. -/
theorem moveCard_inv (s : KanbanState) (cardId toColumnId : IdVal)
    (toLaneId : LaneRef) (toIndex : Option Int)
    (hn : NoUndefLane s.cards) (hd : CardGroupsDense s.cards) :
    NoUndefLane (moveCard s cardId toColumnId toLaneId toIndex).2.cards ∧
      CardGroupsDense (moveCard s cardId toColumnId toLaneId toIndex).2.cards := by
  unfold moveCard
  split
  · exact ⟨hn, hd⟩
  · rename_i i _
    split
    · exact ⟨hn, hd⟩
    · rename_i card hget
      have hmem : card ∈ s.cards := List.get?_mem hget
      have hlane : card.laneId ≠ .undef := hn card hmem
      have hi : i < s.cards.length := (List.get?_eq_some.mp hget).1
      dsimp only
      set lan : LaneRef := (match toLaneId with
        | LaneRef.undef => card.laneId
        | l => l) with hlan
      set card1 : Card := { card with columnId := toColumnId, laneId := lan }
        with hcard1
      set nl : LaneRef := jsNullish toLaneId lan with hnl
      have hlanne : lan ≠ .undef := by
        rw [hlan]
        cases toLaneId
        · exact hlane
        · simp
        · simp
      have hnl_lan : nl = lan := by
        rw [hnl, hlan]
        cases toLaneId <;> rfl
      have hc1col : card1.columnId = toColumnId := by rw [hcard1]
      have hc1lan : card1.laneId = lan := by rw [hcard1]
      have hl1 : card1.laneId ≠ .undef := by rw [hc1lan]; exact hlanne
      have hnl1 : nl = card1.laneId := by rw [hnl_lan, hc1lan]
      rw [← hc1col, hnl1]
      cases toIndex with
      | none =>
          by_cases hch : card.columnId ≠ card1.columnId ∨
            card.laneId ≠ card1.laneId
          · simp only [if_pos hch]
            exact moveCard_changed_inv s.cards i card card1 hget hlane hl1 hn hd
          · simp only [if_neg hch]
            push_neg at hch
            have hcc : card1 = card := by
              rw [hcard1, show toColumnId = card.columnId from
                  (hch.1.trans hc1col).symm,
                show lan = card.laneId from (hch.2.trans hc1lan).symm]
            rw [hcc, set_get?_self s.cards i card hget]
            exact ⟨hn, hd⟩
      | some idx =>
          by_cases hch : card.columnId ≠ card1.columnId ∨
            card.laneId ≠ card1.laneId
          · simp only [if_pos hch]
            have hset : (s.cards.set i card1).get? i = some card1 :=
              set_get?_eq s.cards i card1 hi
            obtain ⟨y1, hy1, hy1c, hy1l⟩ := reorderCards_get?_some
              (s.cards.set i card1) card.columnId card.laneId i card1 hset
            obtain ⟨y2, hy2, hy2c, hy2l⟩ := reorderCards_get?_some
              _ card1.columnId card1.laneId i y1 hy1
            rw [hy2]
            have hprev := moveCard_changed_inv s.cards i card card1 hget
              hlane hl1 hn hd
            exact setOrder_reorder_inv _ i y2 idx card1.columnId card1.laneId
              (hy2c.trans hy1c) (hy2l.trans hy1l) hy2 hl1 hprev.1 hprev.2
          · simp only [if_neg hch]
            push_neg at hch
            have hcc : card1 = card := by
              rw [hcard1, show toColumnId = card.columnId from
                  (hch.1.trans hc1col).symm,
                show lan = card.laneId from (hch.2.trans hc1lan).symm]
            rw [hcc, set_get?_self s.cards i card hget, hget]
            exact setOrder_reorder_inv s.cards i card idx toColumnId lan
              (hch.1.trans hc1col) (hch.2.trans hc1lan) hget hlanne hn hd

/-- Every legal add/remove/move operation preserves the store's density
invariant. -/
theorem applyOp_inv (s : KanbanState) (op : Op) (hop : LegalOp op)
    (h : StoreInv s) : StoreInv (applyOp s op) := by
  obtain ⟨hn, hd, hc, hl⟩ := h
  cases op with
  | addLane lane i =>
      have hcards : (addLane s lane i).cards = s.cards := by
        cases i <;> rfl
      have hcols : (addLane s lane i).columns = s.columns := by
        cases i <;> rfl
      exact ⟨hcards ▸ hn, hcards ▸ hd, hcols ▸ hc, addLane_dense s lane i hl⟩
  | removeLane id =>
      have hcards : (removeLane s id).2.cards = s.cards := by
        unfold removeLane
        cases s.lanes.findIdx? (fun l => l.id == id) <;> rfl
      have hcols : (removeLane s id).2.columns = s.columns := by
        unfold removeLane
        cases s.lanes.findIdx? (fun l => l.id == id) <;> rfl
      exact ⟨hcards ▸ hn, hcards ▸ hd, hcols ▸ hc, removeLane_dense s id hl⟩
  | addColumn col i =>
      have hcards : (addColumn s col i).cards = s.cards := by
        cases i <;> rfl
      have hlanes : (addColumn s col i).lanes = s.lanes := by
        cases i <;> rfl
      exact ⟨hcards ▸ hn, hcards ▸ hd, addColumn_dense s col i hc, hlanes ▸ hl⟩
  | removeColumn id =>
      have hcards : (removeColumn s id).2.cards = s.cards := by
        unfold removeColumn
        cases s.columns.findIdx? (fun c => c.id == id) <;> rfl
      have hlanes : (removeColumn s id).2.lanes = s.lanes := by
        unfold removeColumn
        cases s.columns.findIdx? (fun c => c.id == id) <;> rfl
      exact ⟨hcards ▸ hn, hcards ▸ hd, removeColumn_dense s id hc, hlanes ▸ hl⟩
  | addCard card i =>
      have hcols : (addCard s card i).columns = s.columns := by
        cases i <;> rfl
      have hlanes : (addCard s card i).lanes = s.lanes := by
        cases i <;> rfl
      have hcard := addCard_inv s card i hop hn hd
      exact ⟨hcard.1, hcard.2, hcols ▸ hc, hlanes ▸ hl⟩
  | removeCard id =>
      have hcols : (removeCard s id).2.columns = s.columns := by
        unfold removeCard
        cases s.cards.findIdx? (fun c => c.id == id) with
        | none => rfl
        | some i =>
            dsimp only
            cases s.cards.get? i <;> rfl
      have hlanes : (removeCard s id).2.lanes = s.lanes := by
        unfold removeCard
        cases s.cards.findIdx? (fun c => c.id == id) with
        | none => rfl
        | some i =>
            dsimp only
            cases s.cards.get? i <;> rfl
      have hcard := removeCard_inv s id hn hd
      exact ⟨hcard.1, hcard.2, hcols ▸ hc, hlanes ▸ hl⟩
  | moveCard id toCol toLane toIdx =>
      have hcols : (moveCard s id toCol toLane toIdx).2.columns = s.columns := by
        unfold moveCard
        cases s.cards.findIdx? (fun c => c.id == id) with
        | none => rfl
        | some i =>
            dsimp only
            cases s.cards.get? i <;> rfl
      have hlanes : (moveCard s id toCol toLane toIdx).2.lanes = s.lanes := by
        unfold moveCard
        cases s.cards.findIdx? (fun c => c.id == id) with
        | none => rfl
        | some i =>
            dsimp only
            cases s.cards.get? i <;> rfl
      have hcard := moveCard_inv s id toCol toLane toIdx hn hd
      exact ⟨hcard.1, hcard.2, hcols ▸ hc, hlanes ▸ hl⟩

/-- Invariant preservation along any finite operation sequence. -/
theorem applyOps_inv (s : KanbanState) (ops : List Op)
    (hops : ∀ op ∈ ops, LegalOp op) (h : StoreInv s) :
    StoreInv (applyOps s ops) := by
  induction ops generalizing s with
  | nil => exact h
  | cons op rest ih =>
      exact ih (applyOp s op)
        (fun o ho => hops o (List.mem_cons_of_mem op ho))
        (applyOp_inv s op (hops op (List.mem_cons_self op rest)) h)

/-! ## Concrete boards used in the claim instances -/

/-- The empty board: every sibling group is empty, hence trivially
dense. -/
def emptyState : KanbanState := ⟨[], [], []⟩

/-- Two lanes, one column in each lane, then one more column added to
the first lane — all through the public add operations. -/
def twoLaneColumnOps : List Op :=
  [.addLane ⟨.str "lane-a", "Lane A", none⟩ none,
   .addLane ⟨.str "lane-b", "Lane B", none⟩ none,
   .addColumn ⟨.str "col-1", "Col 1", .id (.str "lane-a"), none⟩ none,
   .addColumn ⟨.str "col-2", "Col 2", .id (.str "lane-b"), none⟩ none]

theorem specSiblingDensity_empty : SpecSiblingDensity emptyState := by
  refine ⟨?_, ?_, ?_⟩
  · intro c l
    exact List.Perm.nil
  · intro l
    exact List.Perm.nil
  · exact List.Perm.nil

/-- C1 (counterexample): the order-density invariant *as the
specification states it* — dense orders in every sibling group, with
columns grouped per lane — is violated by the code.  Starting from the
(normalized, trivially dense) empty board, adding two lanes and then one
column to each lane through the public add operations leaves the second
lane's column group with the single order value `1` instead of `0`:
`addColumn` assigns `order = columns.length` globally, ignoring lanes. -/
theorem C1_spec_density_counterexample :
    SpecSiblingDensity emptyState ∧
      ¬ SpecSiblingDensity (applyOps emptyState twoLaneColumnOps) := by
  refine ⟨specSiblingDensity_empty, ?_⟩
  intro h
  have h2 := h.2.1 (.id (.str "lane-b"))
  unfold DenseOrders at h2
  revert h2
  decide

/-- C1 (amended): after any finite sequence of add/remove/move
operations on a store satisfying the density invariant the code actually
maintains, the invariant still holds: every card sibling group (same
`columnId` and same `laneId`) carries orders exactly `{0,…,n-1}`, the
*global* column sequence carries orders `{0,…,n-1}` (columns are
renumbered across all lanes, not per lane), and the lanes carry orders
`{0,…,n-1}` — provided every card keeps an explicit lane reference (an
`ID` or `null`; a card whose `laneId` is left `undefined` makes
`reorderCards` renumber the whole column across lanes and can break
per-group density). -/
theorem C1_order_density_amended (s : KanbanState) (ops : List Op)
    (hops : ∀ op ∈ ops, LegalOp op) (h : StoreInv s) :
    StoreInv (applyOps s ops) :=
  applyOps_inv s ops hops h

/-- A no-lane two-column board driven through adds, a cross-column move
and a removal. -/
def densityWitnessOps : List Op :=
  [.addColumn ⟨.str "todo", "To do", .undef, none⟩ none,
   .addColumn ⟨.str "done", "Done", .undef, none⟩ none,
   .addCard ⟨.str "a", "A", .str "todo", .null, none⟩ none,
   .addCard ⟨.str "b", "B", .str "todo", .null, none⟩ none,
   .addCard ⟨.str "c", "C", .str "todo", .null, none⟩ (some 1),
   .moveCard (.str "b") (.str "done") .undef none,
   .removeCard (.str "a")]

theorem C1_order_density_amended_witness :
    StoreInv (applyOps emptyState densityWitnessOps) :=
  C1_order_density_amended emptyState densityWitnessOps
    (by
      intro op hop
      fin_cases hop <;> first | trivial | exact fun hh => LaneRef.noConfusion hh)
    ⟨fun x hx => absurd hx (List.not_mem_nil x),
     fun _ _ => List.Perm.nil, List.Perm.nil, List.Perm.nil⟩

/-! ## The board facade: `SaharosKanban.moveCard` (src/core/Kanban.ts)

The public move operation looks the card and the destination column up
before delegating to `StateManager.moveCard`; a missing card or a
missing destination column yields `false` with no state change.  The
render/notification side effects carry no state and are not modelled. -/

def boardMoveCard (s : KanbanState) (cardId toColumnId : IdVal)
    (toLaneId : LaneRef) (toIndex : Option Int) : Bool × KanbanState :=
  match getCard s.cards cardId with
  | none => (false, s)
  | some _ =>
      match getColumn s.columns toColumnId with
      | none => (false, s)
      | some _ => moveCard s cardId toColumnId toLaneId toIndex

/-- Every card's `columnId` resolves to an existing column. -/
def NoDangling (s : KanbanState) : Prop :=
  ∀ c ∈ s.cards, getColumn s.columns c.columnId ≠ none

theorem moveCard_columns_eq (s : KanbanState) (cardId toColumnId : IdVal)
    (toLaneId : LaneRef) (toIndex : Option Int) :
    (moveCard s cardId toColumnId toLaneId toIndex).2.columns = s.columns := by
  unfold moveCard
  cases s.cards.findIdx? (fun c => c.id == cardId) with
  | none => rfl
  | some i =>
      dsimp only
      cases s.cards.get? i <;> rfl

theorem moveCard_false_eq (s : KanbanState) (cardId toColumnId : IdVal)
    (toLaneId : LaneRef) (toIndex : Option Int)
    (h : (moveCard s cardId toColumnId toLaneId toIndex).1 = false) :
    (moveCard s cardId toColumnId toLaneId toIndex).2 = s := by
  unfold moveCard at h ⊢
  split at h
  · rfl
  · rename_i i _
    split at h
    · rfl
    · cases h

/-- Every card of a post-move store has a `columnId` that is either the
destination column or some pre-move card's column. -/
theorem moveCard_columnIds (s : KanbanState) (cardId toColumnId : IdVal)
    (toLaneId : LaneRef) (toIndex : Option Int) (P : IdVal → Prop)
    (hall : ∀ y ∈ s.cards, P y.columnId) (hto : P toColumnId) :
    ∀ x ∈ (moveCard s cardId toColumnId toLaneId toIndex).2.cards,
      P x.columnId := by
  have hre : ∀ (L : List Card), (∀ x ∈ L, P x.columnId) →
      ∀ (c : IdVal) (l : LaneRef), ∀ x ∈ reorderCards L c l, P x.columnId :=
    fun L hL c l => renumber_forall _ _ _ (fun x : Card => P x.columnId) L
      (fun _ _ h => h) hL
  have hset1 : ∀ (L : List Card), (∀ x ∈ L, P x.columnId) →
      ∀ (j : Nat) (y : Card), P y.columnId →
      ∀ x ∈ L.set j y, P x.columnId := by
    intro L hL j y hy x hx
    rcases List.mem_or_eq_of_mem_set hx with h | rfl
    · exact hL x h
    · exact hy
  unfold moveCard
  split
  · exact hall
  · rename_i i _
    split
    · exact hall
    · rename_i card hget
      have hi : i < s.cards.length := (List.get?_eq_some.mp hget).1
      dsimp only
      set lan : LaneRef := (match toLaneId with
        | LaneRef.undef => card.laneId
        | l => l) with hlan
      set card1 : Card := { card with columnId := toColumnId, laneId := lan }
        with hcard1
      set nl : LaneRef := jsNullish toLaneId lan with hnl
      have hc1 : P card1.columnId := hto
      have hbase : ∀ x ∈ s.cards.set i card1, P x.columnId :=
        hset1 s.cards hall i card1 hc1
      have hchain : ∀ x ∈ reorderCards (reorderCards (s.cards.set i card1)
          card.columnId card.laneId) toColumnId nl, P x.columnId :=
        hre _ (hre _ hbase _ _) _ _
      cases toIndex with
      | none =>
          by_cases hch : card.columnId ≠ toColumnId ∨ card.laneId ≠ nl
          · simp only [if_pos hch]
            exact hchain
          · simp only [if_neg hch]
            exact hbase
      | some idx =>
          by_cases hch : card.columnId ≠ toColumnId ∨ card.laneId ≠ nl
          · simp only [if_pos hch]
            have hset : (s.cards.set i card1).get? i = some card1 :=
              set_get?_eq s.cards i card1 hi
            obtain ⟨y1, hy1, hy1c, hy1l⟩ := reorderCards_get?_some
              (s.cards.set i card1) card.columnId card.laneId i card1 hset
            obtain ⟨y2, hy2, hy2c, hy2l⟩ := reorderCards_get?_some
              _ toColumnId nl i y1 hy1
            rw [hy2]
            refine hre _ ?_ _ _
            refine hset1 _ hchain i _ ?_
            show P y2.columnId
            rw [hy2c, hy1c]
            exact hc1
          · simp only [if_neg hch]
            cases hc2 : (s.cards.set i card1).get? i with
            | none => exact hbase
            | some c2 =>
                refine hre _ ?_ _ _
                refine hset1 _ hbase i _ ?_
                show P c2.columnId
                have : c2 ∈ s.cards.set i card1 := List.get?_mem hc2
                exact hbase c2 this

/-- C2: the public card move returns `false` when the card or the
destination column is missing, leaves the store unchanged whenever it
returns `false`, and never returns `true` while creating a dangling
column reference: if every card's column resolved before the move, every
card's column still resolves after a successful move. -/
theorem C2_moveCard_rejects_missing (s : KanbanState)
    (cardId toColumnId : IdVal) (toLaneId : LaneRef) (toIndex : Option Int) :
    (getCard s.cards cardId = none →
      boardMoveCard s cardId toColumnId toLaneId toIndex = (false, s)) ∧
    (getColumn s.columns toColumnId = none →
      boardMoveCard s cardId toColumnId toLaneId toIndex = (false, s)) ∧
    ((boardMoveCard s cardId toColumnId toLaneId toIndex).1 = false →
      (boardMoveCard s cardId toColumnId toLaneId toIndex).2 = s) ∧
    (NoDangling s →
      (boardMoveCard s cardId toColumnId toLaneId toIndex).1 = true →
      NoDangling (boardMoveCard s cardId toColumnId toLaneId toIndex).2) := by
  cases hcard : getCard s.cards cardId with
  | none =>
      refine ⟨fun _ => ?_, fun _ => ?_, fun _ => ?_, fun hnd _ => ?_⟩ <;>
        simp only [boardMoveCard, hcard]
      exact hnd
  | some c =>
      cases hcol : getColumn s.columns toColumnId with
      | none =>
          refine ⟨fun h => absurd h (by simp),
            fun _ => ?_, fun _ => ?_, fun hnd _ => ?_⟩ <;>
            simp only [boardMoveCard, hcard, hcol]
          exact hnd
      | some col =>
          have hred : boardMoveCard s cardId toColumnId toLaneId toIndex
              = moveCard s cardId toColumnId toLaneId toIndex := by
            simp only [boardMoveCard, hcard, hcol]
          refine ⟨fun h => absurd h (by simp),
            fun h => absurd h (by simp), ?_, ?_⟩
          · rw [hred]
            intro h
            rw [moveCard_false_eq s cardId toColumnId toLaneId toIndex h]
          · rw [hred]
            intro hnd _
            intro x hx
            rw [moveCard_columns_eq]
            refine moveCard_columnIds s cardId toColumnId toLaneId toIndex
              (fun cid => getColumn s.columns cid ≠ none) ?_ ?_ x hx
            · exact hnd
            · show getColumn s.columns toColumnId ≠ none
              rw [hcol]
              simp

/-- A concrete two-column board with one card. -/
def c2State : KanbanState :=
  ⟨[], [⟨.str "todo", "To do", .undef, some 0⟩,
        ⟨.str "done", "Done", .undef, some 1⟩],
   [⟨.str "a", "A", .str "todo", .null, some 0⟩]⟩

theorem C2_moveCard_rejects_missing_witness :
    boardMoveCard c2State (.str "missing") (.str "done") .undef none
        = (false, c2State) ∧
      NoDangling (boardMoveCard c2State (.str "a") (.str "done")
        .undef none).2 :=
  ⟨(C2_moveCard_rejects_missing c2State (.str "missing") (.str "done")
      .undef none).1 (by decide),
   (C2_moveCard_rejects_missing c2State (.str "a") (.str "done")
      .undef none).2.2.2 (by intro x hx; fin_cases hx; decide) (by decide)⟩

/-! ## C3: placement under an explicit `toIndex` -/

/-- One column `c` with cards A, B, C at orders 0, 1, 2 (array order
A, B, C). -/
def c3StateA : KanbanState :=
  ⟨[], [⟨.str "c", "Col", .undef, some 0⟩],
   [⟨.str "A", "A", .str "c", .null, some 0⟩,
    ⟨.str "B", "B", .str "c", .null, some 1⟩,
    ⟨.str "C", "C", .str "c", .null, some 2⟩]⟩

/-- Card M alone in column `c1`; cards X, Y in column `c2` at orders
0, 1. -/
def c3StateB : KanbanState :=
  ⟨[], [⟨.str "c1", "C1", .undef, some 0⟩, ⟨.str "c2", "C2", .undef, some 1⟩],
   [⟨.str "M", "M", .str "c1", .null, some 0⟩,
    ⟨.str "X", "X", .str "c2", .null, some 0⟩,
    ⟨.str "Y", "Y", .str "c2", .null, some 1⟩]⟩

/-- C3 (the code at the failing inputs): `moveCard` implements an
explicit `toIndex` by writing it into `order` and re-running the stable
sort, so ties resolve by array position instead of placing the card at
`toIndex`.  Moving A to index 2 of its own column `[A,B,C]` yields
`[B,A,C]` — A sits at position 1, not 2.  And with `toIndex` omitted, a
cross-column move keeps the card's old `order`, so M moved into
`[X(0),Y(1)]` while carrying order 0 sorts to the *front*, `[M,X,Y]`,
instead of being appended at the end. -/
theorem C3_moveCard_index_bug :
    ((moveCard c3StateA (.str "A") (.str "c") .undef (some 2)).1 = true ∧
      (getCards (moveCard c3StateA (.str "A") (.str "c") .undef
          (some 2)).2.cards (some (.str "c")) .undef).map (fun x => x.id)
        = [.str "B", .str "A", .str "C"]) ∧
    ((moveCard c3StateB (.str "M") (.str "c2") .undef none).1 = true ∧
      (getCards (moveCard c3StateB (.str "M") (.str "c2") .undef
          none).2.cards (some (.str "c2")) .undef).map (fun x => x.id)
        = [.str "M", .str "X", .str "Y"]) := by
  decide

/-! ## C10: the update operations (src/core/state.ts:121/169/214)

A partial patch is a record of optional fields; a present field
overrides the current value (JS object spread), except that `id` is
always forced back to the id *argument* and a missing/undefined `title`
(and for cards `columnId`) falls back to the current value via `??`. -/

structure LanePatch where
  id : Option IdVal := none
  title : Option String := none
  order : Option (Option Int) := none

structure ColumnPatch where
  id : Option IdVal := none
  title : Option String := none
  laneId : Option LaneRef := none
  order : Option (Option Int) := none

structure CardPatch where
  id : Option IdVal := none
  title : Option String := none
  columnId : Option IdVal := none
  laneId : Option LaneRef := none
  order : Option (Option Int) := none

/-- `StateManager.updateLane`:
`{ ...currentLane, ...patch, id: laneId, title: patch.title ?? currentLane.title }`. -/
def updateLane (lanes : List Lane) (laneId : IdVal) (p : LanePatch) :
    Option Lane × List Lane :=
  match lanes.findIdx? (fun l => l.id == laneId) with
  | none => (none, lanes)
  | some i =>
      match lanes.get? i with
      | none => (none, lanes)
      | some cur =>
          let updated : Lane :=
            { id := laneId
              title := p.title.getD cur.title
              order := match p.order with
                | some o => o
                | none => cur.order }
          (some updated, lanes.set i updated)

/-- `StateManager.updateColumn`. -/
def updateColumn (columns : List Column) (columnId : IdVal)
    (p : ColumnPatch) : Option Column × List Column :=
  match columns.findIdx? (fun c => c.id == columnId) with
  | none => (none, columns)
  | some i =>
      match columns.get? i with
      | none => (none, columns)
      | some cur =>
          let updated : Column :=
            { id := columnId
              title := p.title.getD cur.title
              laneId := match p.laneId with
                | some v => v
                | none => cur.laneId
              order := match p.order with
                | some o => o
                | none => cur.order }
          (some updated, columns.set i updated)

/-- `StateManager.updateCard`:
`{ ...currentCard, ...patch, id: cardId, title: patch.title ?? currentCard.title, columnId: patch.columnId ?? currentCard.columnId }`. -/
def updateCard (cards : List Card) (cardId : IdVal) (p : CardPatch) :
    Option Card × List Card :=
  match cards.findIdx? (fun c => c.id == cardId) with
  | none => (none, cards)
  | some i =>
      match cards.get? i with
      | none => (none, cards)
      | some cur =>
          let updated : Card :=
            { id := cardId
              title := p.title.getD cur.title
              columnId := p.columnId.getD cur.columnId
              laneId := match p.laneId with
                | some v => v
                | none => cur.laneId
              order := match p.order with
                | some o => o
                | none => cur.order }
          (some updated, cards.set i updated)

/-- C10: updates never change an entity's identity — whatever the patch
contains (even a different `id`), the entity returned and stored by
`updateLane`/`updateColumn`/`updateCard` carries the id *argument*. -/
theorem C10_update_preserves_identity (lanes : List Lane)
    (columns : List Column) (cards : List Card) (lid cid cdid : IdVal)
    (pl : LanePatch) (pc : ColumnPatch) (pcd : CardPatch) :
    (∀ e, (updateLane lanes lid pl).1 = some e →
      e.id = lid ∧ e ∈ (updateLane lanes lid pl).2) ∧
    (∀ e, (updateColumn columns cid pc).1 = some e →
      e.id = cid ∧ e ∈ (updateColumn columns cid pc).2) ∧
    (∀ e, (updateCard cards cdid pcd).1 = some e →
      e.id = cdid ∧ e ∈ (updateCard cards cdid pcd).2) := by
  refine ⟨?_, ?_, ?_⟩
  · intro e
    unfold updateLane
    split
    · intro h; cases h
    · rename_i i _
      split
      · intro h; cases h
      · rename_i cur hget
        intro h
        cases h
        have hi : i < lanes.length := (List.get?_eq_some.mp hget).1
        exact ⟨rfl, List.get?_mem (set_get?_eq lanes i _ hi)⟩
  · intro e
    unfold updateColumn
    split
    · intro h; cases h
    · rename_i i _
      split
      · intro h; cases h
      · rename_i cur hget
        intro h
        cases h
        have hi : i < columns.length := (List.get?_eq_some.mp hget).1
        exact ⟨rfl, List.get?_mem (set_get?_eq columns i _ hi)⟩
  · intro e
    unfold updateCard
    split
    · intro h; cases h
    · rename_i i _
      split
      · intro h; cases h
      · rename_i cur hget
        intro h
        cases h
        have hi : i < cards.length := (List.get?_eq_some.mp hget).1
        exact ⟨rfl, List.get?_mem (set_get?_eq cards i _ hi)⟩

/-- The single card of the C10 witness board after an update whose
patch tries to smuggle in the id `hijack`. -/
def c10Updated : Card :=
  { id := .str "a", title := "A2", columnId := .str "todo",
    laneId := .null, order := some 0 }

theorem C10_update_preserves_identity_witness :
    c10Updated.id = .str "a" ∧
      c10Updated ∈ (updateCard [⟨.str "a", "A", .str "todo", .null, some 0⟩]
        (.str "a") { id := some (.str "hijack"), title := some "A2" }).2 :=
  (C10_update_preserves_identity [] []
    [⟨.str "a", "A", .str "todo", .null, some 0⟩] (.str "x") (.str "x")
    (.str "a") {} {} { id := some (.str "hijack"), title := some "A2" }).2.2
    c10Updated (by decide)

/-! ## C6: identity rendering and parsing

The renderer writes `String(entity.id)` into `data-*-id` attributes
(src/dom/render.ts); every read back goes through the normalization of
`parseId` (src/core/types.ts:12): an all-digit string becomes the
number, any other string stays a string. -/

def digitChar (d : Nat) : Char := Char.ofNat (48 + d)

/-- Decimal digits of `n`, most significant first, with explicit fuel
(structural recursion so that concrete values compute by `decide`). -/
def natDigitsAux : Nat → Nat → List Char
  | 0, _ => []
  | fuel + 1, n =>
      if n < 10 then [digitChar n]
      else natDigitsAux fuel (n / 10) ++ [digitChar (n % 10)]

def natDigits (n : Nat) : List Char := natDigitsAux (n + 1) n

/-- JS `String(n)` for a natural number: its decimal digits. -/
def natToString (n : Nat) : String := ⟨natDigits n⟩

/-- JS `String(i)` for an integer. -/
def jsNumToString (i : Int) : String :=
  if i < 0 then "-" ++ natToString (-i).toNat else natToString i.toNat

/-- JS `String(id)` for an `ID = string | number`. -/
def jsString (id : IdVal) : String :=
  match id with
  | .str s => s
  | .num n => jsNumToString n

/-- The regex `/^\d+$/`: nonempty and every char in `0`–`9`. -/
def isAllDigits (s : String) : Bool :=
  !s.data.isEmpty && s.data.all Char.isDigit

/-- `Number(s)` on an all-digit string: its decimal value. -/
def parseDigits (s : String) : Nat :=
  s.data.foldl (fun a c => a * 10 + (c.toNat - 48)) 0

/-- `parseId` (src/core/types.ts:12):
`/^\d+$/.test(id) ? Number(id) : id`. -/
def parseId (s : String) : IdVal :=
  if isAllDigits s then .num (Int.ofNat (parseDigits s)) else .str s

theorem digitChar_isDigit {d : Nat} (h : d < 10) :
    (digitChar d).isDigit = true := by
  interval_cases d <;> decide

theorem digitChar_toNat {d : Nat} (h : d < 10) :
    (digitChar d).toNat = 48 + d := by
  interval_cases d <;> decide

theorem foldl_digits_append (xs : List Char) (c : Char) (a : Nat) :
    (xs ++ [c]).foldl (fun a c => a * 10 + (c.toNat - 48)) a
      = (xs.foldl (fun a c => a * 10 + (c.toNat - 48)) a) * 10
        + (c.toNat - 48) := by
  rw [List.foldl_append]
  rfl

theorem natDigitsAux_spec :
    ∀ (fuel n : Nat), n < fuel →
      (natDigitsAux fuel n).all Char.isDigit = true ∧
      natDigitsAux fuel n ≠ [] ∧
      (natDigitsAux fuel n).foldl (fun a c => a * 10 + (c.toNat - 48)) 0
        = n := by
  intro fuel
  induction fuel with
  | zero => intro n hn; cases hn
  | succ f ih =>
      intro n hn
      by_cases h : n < 10
      · refine ⟨?_, ?_, ?_⟩ <;> simp [natDigitsAux, h]
        · exact digitChar_isDigit h
        · rw [digitChar_toNat h]
          omega
      · have h10 : 10 ≤ n := Nat.le_of_not_lt h
        have hdiv : n / 10 < n := Nat.div_lt_self (by omega) (by omega)
        have hdivf : n / 10 < f := by omega
        obtain ⟨ha, hne, hp⟩ := ih (n / 10) hdivf
        have hunf : natDigitsAux (f + 1) n
            = natDigitsAux f (n / 10) ++ [digitChar (n % 10)] := by
          simp [natDigitsAux, h]
        refine ⟨?_, ?_, ?_⟩
        · rw [hunf, List.all_append, ha]
          simp [digitChar_isDigit (Nat.mod_lt n (by omega))]
        · rw [hunf]
          simp
        · rw [hunf, foldl_digits_append, hp,
            digitChar_toNat (Nat.mod_lt n (by omega))]
          omega

theorem natToString_roundtrip (n : Nat) :
    isAllDigits (natToString n) = true ∧ parseDigits (natToString n) = n := by
  obtain ⟨ha, hne, hp⟩ := natDigitsAux_spec (n + 1) n (Nat.lt_succ_self n)
  unfold natToString isAllDigits parseDigits natDigits
  constructor
  · rw [show (String.mk (natDigitsAux (n + 1) n)).data
        = natDigitsAux (n + 1) n from rfl]
    rw [ha]
    simp [hne]
  · exact hp

/-- C6 (amended): identity round-trip through a rendered attribute holds
for every identity that is a nonnegative integer or a string that is not
all digits: `parseId (String id) = id`, so any lookup with the parsed
identity agrees with a lookup with the stored identity.  (A stored
identity that *is* an all-digit string — e.g. `"42"` — breaks the
round-trip: `parseId` maps it to the number `42`, which strict equality
distinguishes from the string.) -/
theorem C6_identity_roundtrip (id : IdVal)
    (h : (∃ n : Nat, id = .num (Int.ofNat n)) ∨
      (∃ s : String, id = .str s ∧ isAllDigits s = false)) :
    parseId (jsString id) = id ∧
      ∀ cards : List Card, getCard cards (parseId (jsString id))
        = getCard cards id := by
  have hmain : parseId (jsString id) = id := by
    rcases h with ⟨n, rfl⟩ | ⟨str, rfl, hs⟩
    · show parseId (jsNumToString (Int.ofNat n)) = .num (Int.ofNat n)
      have hpos : ¬ (Int.ofNat n < 0) := by
        simp [Int.ofNat_eq_natCast]
      unfold jsNumToString
      rw [if_neg hpos]
      obtain ⟨hd, hv⟩ := natToString_roundtrip (Int.ofNat n).toNat
      unfold parseId
      rw [if_pos hd, hv]
      simp [Int.ofNat_eq_natCast]
    · show parseId str = .str str
      unfold parseId
      rw [if_neg (by simp [hs])]
  exact ⟨hmain, fun cards => by rw [hmain]⟩

theorem C6_identity_roundtrip_witness :
    (parseId (jsString (.num (Int.ofNat 7))) = .num (Int.ofNat 7) ∧
      ∀ cards : List Card, getCard cards (parseId (jsString
        (.num (Int.ofNat 7)))) = getCard cards (.num (Int.ofNat 7))) ∧
    (parseId (jsString (.str "card-x")) = .str "card-x" ∧
      ∀ cards : List Card, getCard cards (parseId (jsString
        (.str "card-x"))) = getCard cards (.str "card-x")) :=
  ⟨C6_identity_roundtrip (.num (Int.ofNat 7)) (Or.inl ⟨7, rfl⟩),
   C6_identity_roundtrip (.str "card-x") (Or.inr ⟨"card-x", rfl, by decide⟩)⟩

/-- C6 (counterexample): a stored entity whose id is the numeric-looking
*string* `"42"` does not survive the round-trip — the rendered attribute
`"42"` parses to the *number* 42, and the lookup misses the entity. -/
theorem C6_identity_roundtrip_counterexample :
    parseId (jsString (.str "42")) ≠ .str "42" ∧
      getCard [⟨.str "42", "T", .str "c", .null, some 0⟩]
        (parseId (jsString (.str "42"))) = none ∧
      getCard [⟨.str "42", "T", .str "c", .null, some 0⟩] (.str "42")
        = some ⟨.str "42", "T", .str "c", .null, some 0⟩ := by
  decide

/-! ## C7: the hit-test insertion rule (src/core/dnd.ts:1045)

`findDropTarget` walks the destination column's card elements in DOM
order (the dragged card excluded by the `:not(.sk-card--dragging)`
selector), computes each card's vertical midpoint `rect.top +
rect.height / 2`, and picks the first card with `y < midY` as the
element to insert before; if none matches, the insertion index is the
number of remaining cards. -/

/-- The bounding box data of one card element, in CSS pixels. -/
structure CardRect where
  top : Rat
  height : Rat
deriving DecidableEq, Repr

def midY (r : CardRect) : Rat := r.top + r.height / 2

/-- The loop of `findDropTarget`: `insertIndex` starts at
`cards.length` and the loop breaks at the first card whose midpoint
lies strictly below the pointer (`y < midY`). -/
def findInsertIndex (y : Rat) : List CardRect → Nat
  | [] => 0
  | r :: rest => if y < midY r then 0 else findInsertIndex y rest + 1

/-- Modelled from the specification's words: "the index of the first
card whose midpoint is strictly greater than Y; if no such card exists,
the insertion index is the end of the list" — which is exactly
`List.findIdx` (it returns the length when nothing matches). -/
def specInsertIndex (y : Rat) (cards : List CardRect) : Nat :=
  cards.findIdx fun r => y < midY r

/-- C7: the hit-test loop resolves exactly the specified insertion
index — the first card in DOM order whose midpoint exceeds the
pointer's Y, and the end of the list when the pointer is below every
card's midpoint. -/
theorem C7_insert_index_spec (y : Rat) (cards : List CardRect) :
    findInsertIndex y cards = specInsertIndex y cards ∧
      ((∀ r ∈ cards, midY r ≤ y) →
        findInsertIndex y cards = cards.length) := by
  constructor
  · induction cards with
    | nil => rfl
    | cons r rest ih =>
        unfold findInsertIndex specInsertIndex
        rw [List.findIdx_cons]
        by_cases h : y < midY r
        · simp [h]
        · simp only [h, if_neg h, decide_False, cond_false]
          rw [ih]
          rfl
  · intro hall
    induction cards with
    | nil => rfl
    | cons r rest ih =>
        unfold findInsertIndex
        have hr : ¬ y < midY r := not_lt.mpr (hall r (List.mem_cons_self r rest))
        rw [if_neg hr, ih fun x hx => hall x (List.mem_cons_of_mem r hx)]
        rfl

theorem C7_insert_index_spec_witness :
    findInsertIndex 100 [⟨0, 10⟩, ⟨10, 10⟩]
        = specInsertIndex 100 [⟨0, 10⟩, ⟨10, 10⟩] ∧
      findInsertIndex 100 [⟨0, 10⟩, ⟨10, 10⟩]
        = ([⟨0, 10⟩, ⟨10, 10⟩] : List CardRect).length :=
  ⟨(C7_insert_index_spec 100 [⟨0, 10⟩, ⟨10, 10⟩]).1,
   (C7_insert_index_spec 100 [⟨0, 10⟩, ⟨10, 10⟩]).2
     (by intro r hr; fin_cases hr <;> norm_num [midY])⟩

/-! ## C8: the event bus (src/core/events.ts)

Handlers for one topic live in an insertion-ordered `Set` keyed by
function identity (`hid` below; distinct subscriptions are distinct
function objects).  `once` subscribes a *wrapper* whose body is
`handler(data); this.off(event, wrapped)` — so when the inner handler
throws, the `off` call is skipped; `emit` wraps every handler call in
`try/catch`, so the error is logged and swallowed and iteration
continues. -/

structure Handler where
  hid : Nat
  throws : Bool
  wrapped : Bool
deriving DecidableEq, Repr

/-- `EventBus.on`: `Set.add`, a no-op for an already-subscribed
function object. -/
def busOn (bus : List Handler) (h : Handler) : List Handler :=
  if bus.any (fun x => x.hid == h.hid) then bus else bus ++ [h]

/-- `EventBus.off`: `Set.delete` by function identity. -/
def busOff (bus : List Handler) (n : Nat) : List Handler :=
  bus.filter (fun x => x.hid != n)

/-- `EventBus.once`: subscribe the wrapper. -/
def busOnce (bus : List Handler) (h : Handler) : List Handler :=
  busOn bus { h with wrapped := true }

/-- One `emit`: visit the subscription list in order, skipping handlers
no longer present; a wrapped handler whose inner handler returns
normally removes itself; a throwing handler's error is caught after the
self-removal was skipped.  Returns the final subscription list and the
ordered record of inner-handler invocations. -/
def emitGo : List Handler → List Handler → List Nat →
    List Handler × List Nat
  | [], current, calls => (current, calls)
  | h :: rest, current, calls =>
      if current.any (fun x => x.hid == h.hid) then
        emitGo rest
          (if h.wrapped && !h.throws then busOff current h.hid else current)
          (calls ++ [h.hid])
      else emitGo rest current calls

def busEmit (bus : List Handler) : List Handler × List Nat :=
  emitGo bus bus []

theorem emitGo_absent (n : Nat) : ∀ (q c : List Handler) (k : List Nat),
    (∀ x ∈ c, x.hid ≠ n) → ∀ x ∈ (emitGo q c k).1, x.hid ≠ n := by
  intro q
  induction q with
  | nil => intro c k hc x hx; exact hc x hx
  | cons h rest ih =>
      intro c k hc x hx
      unfold emitGo at hx
      split at hx
      · refine ih _ _ ?_ x hx
        intro z hz
        split at hz
        · exact hc z (List.mem_filter.mp hz).1
        · exact hc z hz
      · exact ih _ _ hc x hx

theorem emitGo_subset : ∀ (q c : List Handler) (k : List Nat),
    ∀ x ∈ (emitGo q c k).1, x ∈ c := by
  intro q
  induction q with
  | nil => intro c k x hx; exact hx
  | cons h rest ih =>
      intro c k x hx
      unfold emitGo at hx
      split at hx
      · have := ih _ _ _ hx
        revert this
        split
        · intro hz; exact (List.mem_filter.mp hz).1
        · exact fun hz => hz
      · exact ih _ _ _ hx

theorem emitGo_calls_mono : ∀ (q c : List Handler) (k : List Nat),
    ∀ n ∈ k, n ∈ (emitGo q c k).2 := by
  intro q
  induction q with
  | nil => intro c k n hn; exact hn
  | cons h rest ih =>
      intro c k n hn
      unfold emitGo
      split
      · exact ih _ _ n (List.mem_append.mpr (Or.inl hn))
      · exact ih _ _ n hn

theorem emitGo_calls_from (n : Nat) : ∀ (q c : List Handler) (k : List Nat),
    n ∈ (emitGo q c k).2 → n ∈ k ∨ ∃ x ∈ q, x.hid = n := by
  intro q
  induction q with
  | nil => intro c k hn; exact Or.inl hn
  | cons h rest ih =>
      intro c k hn
      unfold emitGo at hn
      split at hn
      · rcases ih _ _ hn with hk | ⟨x, hx, rfl⟩
        · rcases List.mem_append.mp hk with hk | hk
          · exact Or.inl hk
          · rcases List.mem_singleton.mp hk with rfl
            exact Or.inr ⟨h, List.mem_cons_self h rest, rfl⟩
        · exact Or.inr ⟨x, List.mem_cons_of_mem h hx, rfl⟩
      · rcases ih _ _ hn with hk | ⟨x, hx, rfl⟩
        · exact Or.inl hk
        · exact Or.inr ⟨x, List.mem_cons_of_mem h hx, rfl⟩

/-- A non-throwing wrapped handler that is still in the queue ends up
removed. -/
theorem emitGo_once_removed (h : Handler) (hw : h.wrapped = true)
    (ht : h.throws = false) : ∀ (q c : List Handler) (k : List Nat),
    h ∈ q → ∀ x ∈ (emitGo q c k).1, x.hid ≠ h.hid := by
  intro q
  induction q with
  | nil => intro c k hq; cases hq
  | cons g rest ih =>
      intro c k hq x hx
      rcases List.mem_cons.mp hq with rfl | hq
      · unfold emitGo at hx
        split at hx
        · rw [hw, ht] at hx
          refine emitGo_absent h.hid rest _ _ ?_ x (by simpa using hx)
          intro z hz
          have := (List.mem_filter.mp hz).2
          simpa using this
        · rename_i hpres
          refine emitGo_absent h.hid rest _ _ ?_ x hx
          intro z hz hzn
          exact hpres (List.any_eq_true.mpr ⟨z, hz, by simp [hzn]⟩)
      · unfold emitGo at hx
        split at hx
        · exact ih _ _ hq x hx
        · exact ih _ _ hq x hx

/-- A throwing handler is never removed (its self-removal is skipped
and nobody else removes its identity when identities are unique in the
queue). -/
theorem emitGo_throws_stays (h : Handler) (ht : h.throws = true) :
    ∀ (q c : List Handler) (k : List Nat),
    (∀ x ∈ q, x.hid = h.hid → x = h) → h ∈ c →
    h ∈ (emitGo q c k).1 := by
  intro q
  induction q with
  | nil => intro c k _ hc; exact hc
  | cons g rest ih =>
      intro c k huniq hc
      unfold emitGo
      have hrest : ∀ x ∈ rest, x.hid = h.hid → x = h :=
        fun x hx => huniq x (List.mem_cons_of_mem g hx)
      split
      · refine ih _ _ hrest ?_
        split
        · rename_i hgw
          refine List.mem_filter.mpr ⟨hc, ?_⟩
          have hgh : g.hid ≠ h.hid := by
            intro he
            have := huniq g (List.mem_cons_self g rest) he
            rw [this, ht] at hgw
            simp at hgw
          simp [Ne.symm hgh]
        · exact hc
      · exact ih _ _ hrest hc

/-- A handler present in both the queue and the live set gets invoked. -/
theorem emitGo_called (h : Handler) : ∀ (q c : List Handler) (k : List Nat),
    (∀ x ∈ q, x.hid = h.hid → x = h) → h ∈ q → h ∈ c →
    h.hid ∈ (emitGo q c k).2 := by
  intro q
  induction q with
  | nil => intro c k _ hq; cases hq
  | cons g rest ih =>
      intro c k huniq hq hc
      have hrest : ∀ x ∈ rest, x.hid = h.hid → x = h :=
        fun x hx => huniq x (List.mem_cons_of_mem g hx)
      by_cases hgh : g = h
      · subst hgh
        unfold emitGo
        rw [if_pos (List.any_eq_true.mpr ⟨g, hc, by simp⟩)]
        exact emitGo_calls_mono rest _ _ g.hid
          (List.mem_append.mpr (Or.inr (List.mem_singleton.mpr rfl)))
      · have hq2 : h ∈ rest := by
          rcases List.mem_cons.mp hq with rfl | hmem
          · exact absurd rfl hgh
          · exact hmem
        unfold emitGo
        split
        · refine ih _ _ hrest hq2 ?_
          split
          · have hne : g.hid ≠ h.hid :=
              fun he => hgh (huniq g (List.mem_cons_self g rest) he)
            exact List.mem_filter.mpr ⟨hc, by simp [Ne.symm hne]⟩
          · exact hc
        · exact ih _ _ hrest hq2 hc

/-- C8 (amended): a handler subscribed via `once` self-removes after its
first invocation *provided that invocation returns normally* — it is
then absent from the subscription set and a second publish does not
invoke it.  A `once` handler whose first invocation throws is *not*
removed (the wrapper's `off` call sits after the inner handler call, and
`emit`'s `try/catch` swallows the error before the removal can run): it
stays subscribed and a second publish invokes it again. -/
theorem C8_once_self_removal_amended (bus : List Handler) (h : Handler)
    (hmem : h ∈ bus) (hw : h.wrapped = true)
    (hnd : (bus.map Handler.hid).Nodup) :
    (h.throws = false →
      (∀ x ∈ (busEmit bus).1, x.hid ≠ h.hid) ∧
        h.hid ∉ (busEmit (busEmit bus).1).2) ∧
    (h.throws = true →
      h ∈ (busEmit bus).1 ∧ h.hid ∈ (busEmit (busEmit bus).1).2) := by
  have huniq : ∀ x ∈ bus, x.hid = h.hid → x = h :=
    fun x hx he => List.inj_on_of_nodup_map hnd hx hmem he
  constructor
  · intro ht
    have hrem : ∀ x ∈ (busEmit bus).1, x.hid ≠ h.hid :=
      emitGo_once_removed h hw ht bus bus [] hmem
    refine ⟨hrem, ?_⟩
    intro hcall
    rcases emitGo_calls_from h.hid (busEmit bus).1 (busEmit bus).1 []
      hcall with hk | ⟨x, hx, hxe⟩
    · cases hk
    · exact hrem x hx hxe
  · intro ht
    have hstay : h ∈ (busEmit bus).1 :=
      emitGo_throws_stays h ht bus bus [] huniq hmem
    refine ⟨hstay, ?_⟩
    have huniq1 : ∀ x ∈ (busEmit bus).1, x.hid = h.hid → x = h :=
      fun x hx => huniq x (emitGo_subset bus bus [] x hx)
    exact emitGo_called h (busEmit bus).1 (busEmit bus).1 [] huniq1
      hstay hstay

/-- C8 (counterexample): a `once` handler whose invocation throws is
called by a *second* publish as well — the claim that it self-removes
"even if that invocation errors" fails on the code.  (After `once` the
stored wrapper is `⟨1, throws, wrapped := true⟩`.) -/
theorem C8_once_self_removal_counterexample :
    (busEmit (busOnce [] ⟨1, true, false⟩)).2 = [1] ∧
      (⟨1, true, true⟩ : Handler) ∈ (busEmit (busOnce [] ⟨1, true, false⟩)).1 ∧
      (busEmit (busEmit (busOnce [] ⟨1, true, false⟩)).1).2 = [1] := by
  decide

/-- A bus holding one well-behaved `once` handler (id 1) and one
throwing `once` handler (id 2). -/
def c8Bus : List Handler :=
  busOnce (busOnce [] ⟨1, false, false⟩) ⟨2, true, false⟩

theorem C8_once_self_removal_amended_witness :
    ((∀ x ∈ (busEmit c8Bus).1, x.hid ≠ 1) ∧
        (1 : Nat) ∉ (busEmit (busEmit c8Bus).1).2) ∧
      ((⟨2, true, true⟩ : Handler) ∈ (busEmit c8Bus).1 ∧
        (2 : Nat) ∈ (busEmit (busEmit c8Bus).1).2) :=
  ⟨(C8_once_self_removal_amended c8Bus ⟨1, false, true⟩ (by decide) rfl
      (by decide)).1 rfl,
   (C8_once_self_removal_amended c8Bus ⟨2, true, true⟩ (by decide) rfl
      (by decide)).2 rfl⟩

/-! ## The drag gesture state machine (src/core/dnd.ts)

`DragAndDropManager` keeps a `DragState` record plus document-level
pointer listeners attached for the duration of a gesture.  DOM facts the
handlers read (which card/column an event resolved to, the hit-test
result under the pointer) enter the model as oracle inputs on the
events; `mirrorElement`/`placeholder`/`draggedElement` are tracked as
presence booleans. -/

structure DndState where
  isDragging : Bool
  draggedCard : Option Card
  draggedElement : Bool
  mirrorElement : Bool
  sourceColumn : Option Column
  targetColumn : Option Column
  placeholder : Bool
  startX : Int
  startY : Int
  offsetX : Int
  offsetY : Int
  currentX : Int
  currentY : Int
  listeners : Bool
deriving DecidableEq, Repr

/-- `getInitialState` plus detached global listeners. -/
def dndInitial : DndState :=
  ⟨false, none, false, false, none, none, false, 0, 0, 0, 0, 0, 0, false⟩

/-- One drag notification on the event bus. -/
inductive Notif where
  | dragStart (card : Card)
  | dragOver (card : Card) (column : Column)
  | dragEnd (card : Card) (src : Column) (dst : Column)
  | dragCancel (card : Card)
deriving DecidableEq, Repr

/-- `handlePointerDown`: `resolved` is the outcome of the card-element
search, the handle check and the card/column data lookups — `none`
makes the handler return with no effect (the gesture never arms); on
success the transient state is armed and the global pointer listeners
attached. -/
def handlePointerDown (st : DndState) (resolved : Option (Card × Column))
    (x y rectLeft rectTop : Int) : DndState :=
  match resolved with
  | none => st
  | some (card, column) =>
      { isDragging := false
        draggedCard := some card
        draggedElement := true
        mirrorElement := false
        sourceColumn := some column
        targetColumn := some column
        placeholder := false
        startX := x
        startY := y
        offsetX := x - rectLeft
        offsetY := y - rectTop
        currentX := x
        currentY := y
        listeners := true }

/-- `startDrag`: flips to dragging, creates mirror and placeholder,
announces `card:drag:start`. -/
def startDrag (st : DndState) : DndState × List Notif :=
  match st.draggedCard with
  | none => (st, [])
  | some card =>
      if st.draggedElement then
        let st1 := { st with
          isDragging := true
          mirrorElement := true
          placeholder := true }
        (st1, [.dragStart card])
      else (st, [])

/-- `updateDrag`: reposition the mirror, run the hit test (`hit` is
`findDropTarget`'s resolved column, `none` when no valid target is
under the pointer), move the placeholder and set the hovered target via
`updateDropTarget` (a no-op without a placeholder), then announce
`card:drag:over` for the current target. -/
def updateDrag (st : DndState) (hit : Option Column) :
    DndState × List Notif :=
  if st.mirrorElement = false then (st, [])
  else
    match hit with
    | none => (st, [])
    | some col =>
        let st1 := if st.placeholder then { st with targetColumn := some col }
          else st
        match st1.draggedCard, st1.targetColumn with
        | some card, some tc => (st1, [.dragOver card tc])
        | _, _ => (st1, [])

/-- `handlePointerMove`: update the tracked position, start the drag on
the first move whose displacement exceeds the tolerance on either axis,
then track the pointer while dragging. -/
def handlePointerMove (st : DndState) (x y : Int) (hit : Option Column)
    (tol : Int) : DndState × List Notif :=
  match st.draggedCard with
  | none => (st, [])
  | some _ =>
      if st.draggedElement = false then (st, [])
      else
        let st1 := { st with currentX := x, currentY := y }
        let dx : Int := |x - st1.startX|
        let dy : Int := |y - st1.startY|
        let s1 := if st1.isDragging = false ∧ (dx > tol ∨ dy > tol) then
            startDrag st1
          else (st1, [])
        let s2 := if s1.1.isDragging then updateDrag s1.1 hit else (s1.1, [])
        (s2.1, s1.2 ++ s2.2)

/-- `cleanup`: remove mirror, placeholder, classes, detach the global
listeners, reset all transient fields. -/
def dndCleanup (_ : DndState) : DndState := dndInitial

/-- `endDrag(cancelled)`. -/
def endDrag (st : DndState) (cancelled : Bool) : DndState × List Notif :=
  match st.draggedCard, st.sourceColumn with
  | some card, some src =>
      if cancelled then (dndCleanup st, [.dragCancel card])
      else (dndCleanup st,
        [.dragEnd card src (st.targetColumn.getD src)])
  | _, _ => (dndCleanup st, [])

/-- `handlePointerUp`: a drop while dragging, a cancel otherwise. -/
def handlePointerUp (st : DndState) : DndState × List Notif :=
  if st.isDragging then endDrag st false else endDrag st true

/-- `handlePointerCancel`: acts only while dragging — in the armed
state it does nothing at all. -/
def handlePointerCancel (st : DndState) : DndState × List Notif :=
  if st.isDragging then endDrag st true else (st, [])

/-- One pointer event of a gesture, with its DOM oracle data. -/
inductive PEvent where
  | move (x y : Int) (hit : Option Column)
  | up
  | cancel
deriving DecidableEq, Repr

def dndStep (tol : Int) (st : DndState) : PEvent → DndState × List Notif
  | .move x y hit => handlePointerMove st x y hit tol
  | .up => handlePointerUp st
  | .cancel => handlePointerCancel st

def runEvents (tol : Int) (st : DndState) : List PEvent →
    DndState × List Notif
  | [] => (st, [])
  | e :: rest =>
      let s1 := dndStep tol st e
      let s2 := runEvents tol s1.1 rest
      (s2.1, s1.2 ++ s2.2)

/-- A full gesture: a successful pointer-down on `card` in `column` at
`(x, y)` (card box corner at `(rectLeft, rectTop)`), followed by the
given events. -/
def runGesture (tol : Int) (card : Card) (column : Column)
    (x y rectLeft rectTop : Int) (evs : List PEvent) :
    DndState × List Notif :=
  runEvents tol
    (handlePointerDown dndInitial (some (card, column)) x y rectLeft rectTop)
    evs

def isStart : Notif → Bool
  | .dragStart _ => true
  | _ => false

def isOver : Notif → Bool
  | .dragOver _ _ => true
  | _ => false

def isTerminal : Notif → Bool
  | .dragEnd _ _ _ => true
  | .dragCancel _ => true
  | _ => false

def oversThenTerminal : List Notif → Bool
  | [] => false
  | [t] => isTerminal t
  | n :: rest => isOver n && oversThenTerminal rest

/-- The specification's per-gesture pattern: drag-start (0 or 1), then
drag-over (0 or more), then exactly one terminal notification. -/
def matchesGesturePattern (tr : List Notif) : Bool :=
  oversThenTerminal tr ||
    (match tr with
     | n :: rest => isStart n && oversThenTerminal rest
     | [] => false)

/-! ## Gesture traces

Between the arming pointer-down and the terminal event, the machine's
state always has the shape `gstate`: card, element, source column and
listeners fixed; mirror and placeholder present exactly while dragging;
some target column always recorded (it starts as the source column). -/

def gstate (card : Card) (col : Column) (x y rectLeft rectTop : Int)
    (dragging : Bool) (tc : Column) (cx cy : Int) : DndState :=
  { isDragging := dragging
    draggedCard := some card
    draggedElement := true
    mirrorElement := dragging
    sourceColumn := some col
    targetColumn := some tc
    placeholder := dragging
    startX := x
    startY := y
    offsetX := x - rectLeft
    offsetY := y - rectTop
    currentX := cx
    currentY := cy
    listeners := true }

theorem handlePointerDown_arm (card : Card) (col : Column)
    (x y rl rt : Int) :
    handlePointerDown dndInitial (some (card, col)) x y rl rt
      = gstate card col x y rl rt false col x y := rfl

theorem move_armed_small (tol : Int) (card : Card) (col : Column)
    (x y rl rt : Int) (tc : Column) (cx cy mx my : Int)
    (hit : Option Column) (h : ¬(|mx - x| > tol ∨ |my - y| > tol)) :
    handlePointerMove (gstate card col x y rl rt false tc cx cy) mx my hit tol
      = (gstate card col x y rl rt false tc mx my, []) := by
  unfold handlePointerMove gstate
  simp only
  have hcond : ¬(True ∧ (|mx - x| > tol ∨ |my - y| > tol)) :=
    fun hc => h hc.2
  simp only [if_neg hcond]
  rfl

theorem move_armed_big_none (tol : Int) (card : Card) (col : Column)
    (x y rl rt : Int) (tc : Column) (cx cy mx my : Int)
    (h : |mx - x| > tol ∨ |my - y| > tol) :
    handlePointerMove (gstate card col x y rl rt false tc cx cy) mx my
        none tol
      = (gstate card col x y rl rt true tc mx my, [.dragStart card]) := by
  unfold handlePointerMove gstate
  simp only
  have hcond : True ∧ (|mx - x| > tol ∨ |my - y| > tol) := ⟨trivial, h⟩
  simp only [if_pos hcond]
  rfl

theorem move_armed_big_some (tol : Int) (card : Card) (col : Column)
    (x y rl rt : Int) (tc : Column) (cx cy mx my : Int) (c : Column)
    (h : |mx - x| > tol ∨ |my - y| > tol) :
    handlePointerMove (gstate card col x y rl rt false tc cx cy) mx my
        (some c) tol
      = (gstate card col x y rl rt true c mx my,
          [.dragStart card, .dragOver card c]) := by
  unfold handlePointerMove gstate
  simp only
  have hcond : True ∧ (|mx - x| > tol ∨ |my - y| > tol) := ⟨trivial, h⟩
  simp only [if_pos hcond]
  rfl

theorem move_dragging_none (tol : Int) (card : Card) (col : Column)
    (x y rl rt : Int) (tc : Column) (cx cy mx my : Int) :
    handlePointerMove (gstate card col x y rl rt true tc cx cy) mx my
        none tol
      = (gstate card col x y rl rt true tc mx my, []) := rfl

theorem move_dragging_some (tol : Int) (card : Card) (col : Column)
    (x y rl rt : Int) (tc : Column) (cx cy mx my : Int) (c : Column) :
    handlePointerMove (gstate card col x y rl rt true tc cx cy) mx my
        (some c) tol
      = (gstate card col x y rl rt true c mx my, [.dragOver card c]) := rfl

theorem up_armed (card : Card) (col : Column) (x y rl rt : Int)
    (tc : Column) (cx cy : Int) :
    handlePointerUp (gstate card col x y rl rt false tc cx cy)
      = (dndInitial, [.dragCancel card]) := rfl

theorem up_dragging (card : Card) (col : Column) (x y rl rt : Int)
    (tc : Column) (cx cy : Int) :
    handlePointerUp (gstate card col x y rl rt true tc cx cy)
      = (dndInitial, [.dragEnd card col tc]) := rfl

theorem cancel_armed (card : Card) (col : Column) (x y rl rt : Int)
    (tc : Column) (cx cy : Int) :
    handlePointerCancel (gstate card col x y rl rt false tc cx cy)
      = (gstate card col x y rl rt false tc cx cy, []) := rfl

theorem cancel_dragging (card : Card) (col : Column) (x y rl rt : Int)
    (tc : Column) (cx cy : Int) :
    handlePointerCancel (gstate card col x y rl rt true tc cx cy)
      = (dndInitial, [.dragCancel card]) := rfl

theorem runEvents_cons (tol : Int) (st : DndState) (e : PEvent)
    (rest : List PEvent) :
    runEvents tol st (e :: rest)
      = ((runEvents tol (dndStep tol st e).1 rest).1,
         (dndStep tol st e).2 ++ (runEvents tol (dndStep tol st e).1 rest).2)
    := rfl

theorem runEvents_append (tol : Int) (st : DndState)
    (l1 l2 : List PEvent) :
    runEvents tol st (l1 ++ l2)
      = ((runEvents tol (runEvents tol st l1).1 l2).1,
         (runEvents tol st l1).2
           ++ (runEvents tol (runEvents tol st l1).1 l2).2) := by
  induction l1 generalizing st with
  | nil => simp [runEvents]
  | cons e rest ih =>
      rw [List.cons_append, runEvents_cons, ih, runEvents_cons]
      simp [List.append_assoc]

/-- While dragging, pointer moves keep dragging and announce only
drag-over notifications. -/
theorem run_moves_dragging (tol : Int) (card : Card) (col : Column)
    (x y rl rt : Int) :
    ∀ (moves : List PEvent),
      (∀ e ∈ moves, ∃ mx my hit, e = PEvent.move mx my hit) →
      ∀ (tc : Column) (cx cy : Int),
      ∃ tc2 cx2 cy2 tr,
        runEvents tol (gstate card col x y rl rt true tc cx cy) moves
          = (gstate card col x y rl rt true tc2 cx2 cy2, tr) ∧
        tr.all isOver = true := by
  intro moves
  induction moves with
  | nil => exact fun _ tc cx cy => ⟨tc, cx, cy, [], rfl, rfl⟩
  | cons e rest ih =>
      intro hm tc cx cy
      obtain ⟨mx, my, hit, rfl⟩ := hm e (List.mem_cons_self e rest)
      have hrest := fun e he => hm e (List.mem_cons_of_mem _ he)
      cases hit with
      | none =>
          obtain ⟨tc2, cx2, cy2, tr, heq, hall⟩ := ih hrest tc mx my
          refine ⟨tc2, cx2, cy2, tr, ?_, hall⟩
          rw [runEvents_cons]
          simp only [dndStep]
          rw [move_dragging_none, heq]
          rfl
      | some c =>
          obtain ⟨tc2, cx2, cy2, tr, heq, hall⟩ := ih hrest c mx my
          refine ⟨tc2, cx2, cy2, .dragOver card c :: tr, ?_, ?_⟩
          · rw [runEvents_cons]
            simp only [dndStep]
            rw [move_dragging_some, heq]
            rfl
          · simpa [isOver] using hall

/-- From the armed state, a run of pointer moves either stays armed and
silent, or flips to dragging with one drag-start followed only by
drag-overs. -/
theorem run_moves_armed (tol : Int) (card : Card) (col : Column)
    (x y rl rt : Int) :
    ∀ (moves : List PEvent),
      (∀ e ∈ moves, ∃ mx my hit, e = PEvent.move mx my hit) →
      ∀ (tc : Column) (cx cy : Int),
      (∃ tc2 cx2 cy2,
        runEvents tol (gstate card col x y rl rt false tc cx cy) moves
          = (gstate card col x y rl rt false tc2 cx2 cy2, [])) ∨
      (∃ tc2 cx2 cy2 overs,
        runEvents tol (gstate card col x y rl rt false tc cx cy) moves
          = (gstate card col x y rl rt true tc2 cx2 cy2,
              .dragStart card :: overs) ∧
        overs.all isOver = true) := by
  intro moves
  induction moves with
  | nil => exact fun _ tc cx cy => Or.inl ⟨tc, cx, cy, rfl⟩
  | cons e rest ih =>
      intro hm tc cx cy
      obtain ⟨mx, my, hit, rfl⟩ := hm e (List.mem_cons_self e rest)
      have hrest := fun e he => hm e (List.mem_cons_of_mem _ he)
      by_cases hbig : |mx - x| > tol ∨ |my - y| > tol
      · cases hit with
        | none =>
            obtain ⟨tc2, cx2, cy2, tr, heq, hall⟩ :=
              run_moves_dragging tol card col x y rl rt rest hrest tc mx my
            refine Or.inr ⟨tc2, cx2, cy2, tr, ?_, hall⟩
            rw [runEvents_cons]
            simp only [dndStep]
            rw [move_armed_big_none tol card col x y rl rt tc cx cy mx my
              hbig, heq]
            rfl
        | some c =>
            obtain ⟨tc2, cx2, cy2, tr, heq, hall⟩ :=
              run_moves_dragging tol card col x y rl rt rest hrest c mx my
            refine Or.inr ⟨tc2, cx2, cy2, .dragOver card c :: tr, ?_, ?_⟩
            · rw [runEvents_cons]
              simp only [dndStep]
              rw [move_armed_big_some tol card col x y rl rt tc cx cy mx my
                c hbig, heq]
              rfl
            · simpa [isOver] using hall
      · rcases ih hrest tc mx my with ⟨tc2, cx2, cy2, heq⟩ |
          ⟨tc2, cx2, cy2, overs, heq, hall⟩
        · refine Or.inl ⟨tc2, cx2, cy2, ?_⟩
          rw [runEvents_cons]
          simp only [dndStep]
          rw [move_armed_small tol card col x y rl rt tc cx cy mx my _ hbig,
            heq]
          rfl
        · refine Or.inr ⟨tc2, cx2, cy2, overs, ?_, hall⟩
          rw [runEvents_cons]
          simp only [dndStep]
          rw [move_armed_small tol card col x y rl rt tc cx cy mx my _ hbig,
            heq]
          rfl

theorem oversThenTerminal_append (overs : List Notif) (t : Notif)
    (hall : overs.all isOver = true) (ht : isTerminal t = true) :
    oversThenTerminal (overs ++ [t]) = true := by
  induction overs with
  | nil => simpa [oversThenTerminal] using ht
  | cons n rest ih =>
      obtain ⟨hn, hrest⟩ : isOver n = true ∧ rest.all isOver = true := by
        simpa [List.all_cons, Bool.and_eq_true] using hall
      cases rest with
      | nil =>
          show (isOver n && oversThenTerminal [t]) = true
          simp [oversThenTerminal, hn, ht]
      | cons m rs =>
          show (isOver n && oversThenTerminal ((m :: rs) ++ [t])) = true
          rw [ih hrest]
          simp [hn]

theorem matches_overs_terminal (overs : List Notif) (t : Notif)
    (hall : overs.all isOver = true) (ht : isTerminal t = true) :
    matchesGesturePattern (overs ++ [t]) = true := by
  unfold matchesGesturePattern
  rw [oversThenTerminal_append overs t hall ht]
  simp

theorem matches_start_overs_terminal (card : Card) (overs : List Notif)
    (t : Notif) (hall : overs.all isOver = true) (ht : isTerminal t = true) :
    matchesGesturePattern (.dragStart card :: (overs ++ [t])) = true := by
  have h := oversThenTerminal_append overs t hall ht
  unfold matchesGesturePattern
  simp [isStart, h]

theorem runEvents_snoc (tol : Int) (st : DndState) (moves : List PEvent)
    (e : PEvent) :
    runEvents tol st (moves ++ [e])
      = ((dndStep tol (runEvents tol st moves).1 e).1,
         (runEvents tol st moves).2
           ++ (dndStep tol (runEvents tol st moves).1 e).2) := by
  rw [runEvents_append]
  simp [runEvents_cons, runEvents]

/-- While every move stays within the tolerance box around the down
point, the machine stays armed and silent, only tracking the pointer. -/
theorem run_moves_armed_small (tol : Int) (card : Card) (col : Column)
    (x y rl rt : Int) :
    ∀ (moves : List PEvent),
      (∀ e ∈ moves, ∃ mx my hit, e = PEvent.move mx my hit ∧
        ¬(|mx - x| > tol ∨ |my - y| > tol)) →
      ∀ (tc : Column) (cx cy : Int),
      ∃ cx2 cy2,
        runEvents tol (gstate card col x y rl rt false tc cx cy) moves
          = (gstate card col x y rl rt false tc cx2 cy2, []) := by
  intro moves
  induction moves with
  | nil => exact fun _ tc cx cy => ⟨cx, cy, rfl⟩
  | cons e rest ih =>
      intro hm tc cx cy
      obtain ⟨mx, my, hit, rfl, hsmall⟩ := hm e (List.mem_cons_self e rest)
      have hrest := fun e he => hm e (List.mem_cons_of_mem _ he)
      obtain ⟨cx2, cy2, heq⟩ := ih hrest tc mx my
      refine ⟨cx2, cy2, ?_⟩
      rw [runEvents_cons]
      simp only [dndStep]
      rw [move_armed_small tol card col x y rl rt tc cx cy mx my hit hsmall,
        heq]
      rfl

/-- A concrete card and column for evaluating drag gestures. -/
def dndCard : Card :=
  ⟨IdVal.str "card-1", "Card 1", IdVal.str "col-1", LaneRef.undef, some 0⟩

def dndCol : Column :=
  ⟨IdVal.str "col-1", "Col 1", LaneRef.undef, some 0⟩

/-- C4 (as stated, refuted): the spec says a pointer-up after a
within-tolerance gesture emits zero drag notifications, including no
card:drag:cancel; in the code `handlePointerUp` on a non-dragging
gesture calls `cancelDrag`, and `endDrag(true)` finds `draggedCard`
set, so a card:drag:cancel notification is emitted. -/
theorem C4_tap_silent_counterexample :
    (runGesture 5 dndCard dndCol 0 0 0 0 [PEvent.up]).2
        = [Notif.dragCancel dndCard] ∧
    (runGesture 5 dndCard dndCol 0 0 0 0 [PEvent.up]).2 ≠ [] := by
  decide

/-- C4 (amended): for every gesture of a pointer-down on a draggable
card, pointer moves whose displacement never exceeds the tolerance on
either axis, and a pointer-up, the emitted drag notifications are
exactly one card:drag:cancel — in particular no card:drag:start,
card:drag:over or card:drag:end, and hence no store move call (which
happens only on a card:drag:end path). -/
theorem C4_within_tolerance_amended (tol : Int) (card : Card)
    (col : Column) (x y rl rt : Int) (moves : List PEvent)
    (hmv : ∀ e ∈ moves, ∃ mx my hit, e = PEvent.move mx my hit ∧
      ¬(|mx - x| > tol ∨ |my - y| > tol)) :
    (runGesture tol card col x y rl rt (moves ++ [PEvent.up])).2
      = [Notif.dragCancel card] := by
  unfold runGesture
  rw [handlePointerDown_arm]
  obtain ⟨cx2, cy2, heq⟩ :=
    run_moves_armed_small tol card col x y rl rt moves hmv col x y
  simp only [runEvents_snoc, heq, dndStep, up_armed, List.nil_append]

theorem C4_within_tolerance_amended_witness :
    (runGesture 5 dndCard dndCol 0 0 0 0
        ([PEvent.move 3 4 none] ++ [PEvent.up])).2
      = [Notif.dragCancel dndCard] :=
  C4_within_tolerance_amended 5 dndCard dndCol 0 0 0 0
    [PEvent.move 3 4 none]
    (by
      intro e he
      fin_cases he
      exact ⟨3, 4, none, rfl, by decide⟩)

/-- C5 (as stated, refuted): a pointer-cancel that arrives while the
gesture is still armed (tolerance never exceeded) emits no notification
at all, so the gesture's trace contains no terminal notification and
the spec's pattern does not match. -/
theorem C5_gesture_pattern_counterexample :
    (runGesture 5 dndCard dndCol 0 0 0 0 [PEvent.cancel]).2 = [] ∧
    matchesGesturePattern
        (runGesture 5 dndCard dndCol 0 0 0 0 [PEvent.cancel]).2 = false := by
  decide

/-- C5 (amended): for every single gesture (pointer-down, pointer
moves, then a terminal event), an up-terminated gesture's trace always
matches the pattern — optional card:drag:start, then zero or more
card:drag:over, then exactly one terminal notification.  A
cancel-terminated gesture splits on whether dragging had started by the
time the pointer-cancel arrives (the machine's `isDragging` after the
down-and-moves prefix): if dragging had started, the trace matches the
same terminal-ended pattern; if the gesture was still armed, nothing at
all is emitted. -/
theorem C5_gesture_pattern_amended (tol : Int) (card : Card)
    (col : Column) (x y rl rt : Int) (moves : List PEvent)
    (hmv : ∀ e ∈ moves, ∃ mx my hit, e = PEvent.move mx my hit) :
    matchesGesturePattern
        (runGesture tol card col x y rl rt (moves ++ [PEvent.up])).2
      = true ∧
    ((runGesture tol card col x y rl rt moves).1.isDragging = true →
      matchesGesturePattern
        (runGesture tol card col x y rl rt (moves ++ [PEvent.cancel])).2
      = true) ∧
    ((runGesture tol card col x y rl rt moves).1.isDragging = false →
      (runGesture tol card col x y rl rt (moves ++ [PEvent.cancel])).2
      = []) := by
  unfold runGesture
  rw [handlePointerDown_arm]
  rcases run_moves_armed tol card col x y rl rt moves hmv col x y with
    ⟨tc2, cx2, cy2, heq⟩ | ⟨tc2, cx2, cy2, overs, heq, hall⟩
  · refine ⟨?_, ?_, ?_⟩
    · simp only [runEvents_snoc, heq, dndStep, up_armed, List.nil_append]
      rfl
    · intro hdrag
      rw [heq] at hdrag
      simp [gstate] at hdrag
    · intro _
      simp [runEvents_snoc, heq, dndStep, cancel_armed]
  · refine ⟨?_, ?_, ?_⟩
    · simp only [runEvents_snoc, heq, dndStep, up_dragging,
        List.cons_append]
      exact matches_start_overs_terminal card overs _ hall rfl
    · intro _
      simp only [runEvents_snoc, heq, dndStep, cancel_dragging,
        List.cons_append]
      exact matches_start_overs_terminal card overs _ hall rfl
    · intro hdrag
      rw [heq] at hdrag
      simp [gstate] at hdrag

theorem C5_gesture_pattern_amended_witness :
    (matchesGesturePattern
        (runGesture 5 dndCard dndCol 0 0 0 0
          ([PEvent.move 100 0 (some dndCol)] ++ [PEvent.up])).2
      = true ∧
    ((runGesture 5 dndCard dndCol 0 0 0 0
          [PEvent.move 100 0 (some dndCol)]).1.isDragging = true →
      matchesGesturePattern
        (runGesture 5 dndCard dndCol 0 0 0 0
          ([PEvent.move 100 0 (some dndCol)] ++ [PEvent.cancel])).2
      = true) ∧
    ((runGesture 5 dndCard dndCol 0 0 0 0
          [PEvent.move 100 0 (some dndCol)]).1.isDragging = false →
      (runGesture 5 dndCard dndCol 0 0 0 0
          ([PEvent.move 100 0 (some dndCol)] ++ [PEvent.cancel])).2
      = [])) ∧
    (matchesGesturePattern
        (runGesture 5 dndCard dndCol 0 0 0 0
          (([] : List PEvent) ++ [PEvent.up])).2
      = true ∧
    ((runGesture 5 dndCard dndCol 0 0 0 0
          ([] : List PEvent)).1.isDragging = true →
      matchesGesturePattern
        (runGesture 5 dndCard dndCol 0 0 0 0
          (([] : List PEvent) ++ [PEvent.cancel])).2
      = true) ∧
    ((runGesture 5 dndCard dndCol 0 0 0 0
          ([] : List PEvent)).1.isDragging = false →
      (runGesture 5 dndCard dndCol 0 0 0 0
          (([] : List PEvent) ++ [PEvent.cancel])).2
      = [])) :=
  ⟨C5_gesture_pattern_amended 5 dndCard dndCol 0 0 0 0
    [PEvent.move 100 0 (some dndCol)]
    (by
      intro e he
      fin_cases he
      exact ⟨100, 0, some dndCol, rfl⟩),
   C5_gesture_pattern_amended 5 dndCard dndCol 0 0 0 0 []
    (fun e he => absurd he (List.not_mem_nil e))⟩

/-- C9: the spec says a pointer-cancel received in the armed state
(before the tolerance is exceeded) cleans the gesture up — transient
fields reset, global listeners detached, nothing emitted. In the code
`handlePointerCancel` only calls `cancelDrag` when `isDragging` is
true, so an armed-state pointer-cancel is a no-op: nothing is emitted
(as specified) but the transient fields keep the dragged card and the
global listeners stay attached, and the state is not the idle state.
This contradicts the spec's cleanup guarantee: a code bug. -/
theorem C9_armed_cancel_skips_cleanup :
    (runGesture 5 dndCard dndCol 0 0 0 0 [PEvent.cancel]).2 = [] ∧
    (runGesture 5 dndCard dndCol 0 0 0 0 [PEvent.cancel]).1.listeners
      = true ∧
    (runGesture 5 dndCard dndCol 0 0 0 0 [PEvent.cancel]).1.draggedCard
      = some dndCard ∧
    (runGesture 5 dndCard dndCol 0 0 0 0 [PEvent.cancel]).1
      ≠ dndInitial := by
  decide

end Saharos
